import Mathlib

set_option maxRecDepth 8192

deriving instance DecidableEq for Except

namespace MITM

/- Shallow embedding of github.com/rickcrawford/markdowninthemiddle.
Go strings are modelled as Lean strings (byte-exact for the ASCII data all
concrete theorems use); byte slices are modelled as lists of naturals. -/

/-- ASCII lower-casing of one character, the ASCII fragment of Go's
`strings.ToLower` (the sources only lowercase header values and encoding
names, which are ASCII). -/
def lcChar (c : Char) : Char :=
  if 'A' ≤ c ∧ c ≤ 'Z' then Char.ofNat (c.toNat + 32) else c

/-- `strings.ToLower`, ASCII fragment. -/
def lcStr (s : String) : String := String.mk (s.toList.map lcChar)

/-- Whitespace class of Go's `unicode.IsSpace`, ASCII fragment (the sources
only trim header values and encoding names). -/
def goIsSpace (c : Char) : Bool :=
  c = ' ' || c = '\t' || c = '\n' || c = Char.ofNat 11 || c = Char.ofNat 12 || c = '\r'

/-- `strings.TrimSpace`. -/
def trimSp (s : String) : String :=
  String.mk (((s.toList.dropWhile goIsSpace).reverse.dropWhile goIsSpace).reverse)

/-- Substring containment on character lists (`strings.Contains`). -/
def containsSub : List Char → List Char → Bool
  | [], pat => pat.isEmpty
  | h :: t, pat => pat.isPrefixOf (h :: t) || containsSub t pat

/-- `strings.Contains` on strings. -/
def strContainsSub (s sub : String) : Bool := containsSub s.toList sub.toList

/-- `strings.Split` with a one-character separator. -/
def splitOnChar (sep : Char) : List Char → List (List Char)
  | [] => [[]]
  | c :: rest =>
    let r := splitOnChar sep rest
    if c = sep then [] :: r
    else
      match r with
      | h :: t => (c :: h) :: t
      | [] => [[c]]

/-- Everything before the first occurrence of `sep` (`strings.SplitN s sep 2`,
first component). -/
def takeUntilChar (sep : Char) (cs : List Char) : List Char :=
  cs.takeWhile (fun c => c ≠ sep)

/-- `strconv.Atoi` restricted to the forms the cache code can meet: an
optional sign followed by one or more decimal digits, nothing else.
Returns `none` on any other input, as `Atoi` returns an error. -/
def goAtoi (cs : List Char) : Option Int :=
  let digitsToNat : List Char → Option Nat := fun ds =>
    if ds.isEmpty then none
    else if ds.all Char.isDigit then
      some (ds.foldl (fun acc c => acc * 10 + (c.toNat - 48)) 0)
    else none
  match cs with
  | '+' :: rest => (digitsToNat rest).map Int.ofNat
  | '-' :: rest => (digitsToNat rest).map (fun n => -(Int.ofNat n))
  | _ => (digitsToNat cs).map Int.ofNat

namespace Templates

/- internal/templates/templates.go -/

/-- Everything after the first occurrence of colon-slash-slash, when one
exists. -/
def schemeRestL : List Char → Option (List Char)
  | [] => none
  | c :: rest =>
    if [':', '/', '/'].isPrefixOf (c :: rest) then some ((c :: rest).drop 3)
    else schemeRestL rest

/-- `stripScheme`: drop everything through the first occurrence of the
three characters colon-slash-slash; unchanged when absent
(templates.go lines 19-24). -/
def stripSchemeL (cs : List Char) : List Char :=
  match schemeRestL cs with
  | some rest => rest
  | none => cs

/-- `stripScheme` on strings. -/
def stripScheme (s : String) : String := String.mk (stripSchemeL s.toList)

/-- First loop of `Store.Match` (templates.go lines 77-85): fold over the
template map in iteration order, keeping the longest scheme-stripped pattern
that is a prefix of the scheme-stripped URL.  Go map iteration order is not
specified, so the order is an explicit argument. -/
def matchLongest (cmp : List Char) :
    List (String × String) → List Char → String → (List Char × String)
  | [], best, bestT => (best, bestT)
  | (pat, tpl) :: rest, best, bestT =>
    let p := stripSchemeL pat.toList
    if p.isPrefixOf cmp && decide (best.length < p.length) then
      matchLongest cmp rest p tpl
    else
      matchLongest cmp rest best bestT

/-- Second loop of `Store.Match` (templates.go lines 91-97): first pattern in
iteration order whose scheme-stripped form has no slash and is a substring of
the scheme-stripped URL. -/
def matchHostOnly (cmp : List Char) : List (String × String) → Option String
  | [] => none
  | (pat, tpl) :: rest =>
    let p := stripSchemeL pat.toList
    if !(containsSub p ['/']) && containsSub cmp p then some tpl
    else matchHostOnly cmp rest

/-- `Store.Match` (templates.go lines 69-100).  `entries` is the template map
in whatever order Go iterates it; `dflt` is the `_default.mustache` body. -/
def Match (entries : List (String × String)) (dflt : String) (rawURL : String) : String :=
  let cmp := stripSchemeL rawURL.toList
  let best := matchLongest cmp entries [] ""
  if best.snd ≠ "" then best.snd
  else
    match matchHostOnly cmp entries with
    | some t => t
    | none => dflt

end Templates

namespace Output

/- internal/output/output.go -/

/-- Character class of the `unsafeChars` regexp complement: `[a-zA-Z0-9._-]`
(output.go line 30). -/
def safeChar (c : Char) : Bool :=
  ('a' ≤ c && c ≤ 'z') || ('A' ≤ c && c ≤ 'Z') || ('0' ≤ c && c ≤ '9') ||
    c = '.' || c = '_' || c = '-'

/-- `sanitize` (output.go lines 76-78): every unsafe character becomes an
underscore. -/
def sanitize (s : String) : String :=
  String.mk (s.toList.map (fun c => if safeChar c then c else '_'))

/-- The components of a successfully parsed URL that `SafeFilename` reads:
`u.Hostname()`, `u.Path`, `u.RawQuery`. -/
structure GoURL where
  host : String
  path : String
  rawQuery : String

/-- `strings.Trim(path, "/")`. -/
def trimSlashes (s : String) : String :=
  String.mk (((s.toList.dropWhile (· = '/')).reverse.dropWhile (· = '/')).reverse)

/-- `strings.Join(parts, sep)`. -/
def joinSep (sep : String) : List String → String
  | [] => ""
  | [x] => x
  | x :: y :: rest => x ++ sep ++ joinSep sep (y :: rest)

/-- The tail of `SafeFilename` (output.go lines 63-71): join the parts with
`__`, default to `index`, truncate to 200. -/
def finishName (parts : List String) : String :=
  let name := joinSep "__" parts
  let name := if name = "" then "index" else name
  if 200 < name.length then String.mk (name.toList.take 200) else name

/-- `SafeFilename` (output.go lines 35-74).  `net/url.Parse` is external to
the repository, so its outcome is the explicit argument `parsed`: `none` is
the parse-error fallback branch (output.go lines 37-40), `some u` the normal
branch. -/
def SafeFilename (parsed : Option GoURL) (rawURL : String) : String :=
  match parsed with
  | none => sanitize rawURL ++ ".md"
  | some u =>
    let hostParts := if u.host ≠ "" then [sanitize u.host] else []
    let path := trimSlashes u.path
    let pathParts :=
      if path ≠ "" then
        ((splitOnChar '/' path.toList).map (fun seg => sanitize (String.mk seg))).filter
          (fun s => s ≠ "")
      else []
    let queryParts := if u.rawQuery ≠ "" then [sanitize u.rawQuery] else []
    finishName (hostParts ++ pathParts ++ queryParts) ++ ".md"

/-- Documented behaviour of Go's `net/url.Parse` used to justify the
parse-error branch: any ASCII control character in the URL makes `Parse`
return `net/url: invalid control character in URL`. -/
def hasCtlChar (s : String) : Bool :=
  s.toList.any (fun c => c.toNat < 32 || c.toNat = 127)

end Output

/-- Association-list lookup, modelling a Go map read (or a file read keyed by
name). -/
def alGet {α : Type} : List (String × α) → String → Option α
  | [], _ => none
  | (k, v) :: rest, key => if k = key then some v else alGet rest key

/-- Association-list write, modelling a Go map write (or a file write keyed by
name): overwrites an existing binding, else appends. -/
def alPut {α : Type} : List (String × α) → String → α → List (String × α)
  | [], key, v => [(key, v)]
  | (k, w) :: rest, key, v =>
    if k = key then (k, v) :: rest else (k, w) :: alPut rest key v

/-- Association-list delete, modelling `os.Remove`. -/
def alDel {α : Type} : List (String × α) → String → List (String × α)
  | [], _ => []
  | (k, v) :: rest, key => if k = key then alDel rest key else (k, v) :: alDel rest key

/-- The response-header fields the middleware, cache and proxy code read or
write.  A `Get` on an absent Go header returns the empty string, so fields
the code only ever reads are plain strings; fields the code deletes or whose
absence a claim mentions are `Option`.  `expiresAt` is the instant parsed by
`http.ParseTime` from the `Expires` header; `none` stands for an absent or
unparseable header (the code treats the two identically). -/
structure Hdrs where
  contentType : String := ""
  contentEncoding : Option String := none
  contentLength : Option String := none
  cacheControl : String := ""
  expiresAt : Option Int := none
  etag : String := ""
  lastModified : String := ""
  xTokenCount : Option String := none
  vary : Option String := none
deriving DecidableEq

/-- The parts of `*http.Response` the embedded code touches: status, headers,
body bytes, and the `ContentLength` int64 field. -/
structure Resp where
  status : Nat
  hdrs : Hdrs
  body : List Nat
  contentLength : Int
deriving DecidableEq

namespace Cache

/- internal/cache/cache.go.  Instants and durations are modelled as Int
nanoseconds (Go's time.Time / time.Duration resolution). -/

/-- Nanoseconds per second. -/
def perSec : Int := 1000000000

/-- Formatting an instant with `time.Format(time.RFC3339)` drops sub-second
precision; parsing the stored string back gives the instant truncated to a
whole second.  Agrees with Go for the nonnegative (post-1970) instants the
cache stores. -/
def truncSec (t : Int) : Int := (t / perSec) * perSec

/-- `keyFor` (cache.go lines 126-129) is the hex sha256 of the URL.  The hash
itself is external; it is modelled as the identity on URL strings — the
claims only ever relate `Put` and `Get` on the same URL, for which only
key equality matters. -/
def keyFor (rawURL : String) : String := rawURL

/-- The cache directory: `<key>.meta` files hold the stored expiry instant
(already RFC3339-truncated), `<key>.html` files hold body bytes. -/
structure FS where
  metaF : List (String × Int) := []
  bodyF : List (String × List Nat) := []
deriving DecidableEq

/-- `DiskCache.Get` (cache.go lines 132-157): read the meta file; expired
entries delete both files and miss; otherwise read the body file. -/
def Get (fs : FS) (rawURL : String) (now : Int) : Option (List Nat) × FS :=
  let key := keyFor rawURL
  match alGet fs.metaF key with
  | none => (none, fs)
  | some expiry =>
    if expiry < now then
      (none, { metaF := alDel fs.metaF key, bodyF := alDel fs.bodyF key })
    else
      match alGet fs.bodyF key with
      | none => (none, fs)
      | some b => (some b, fs)

/-- `DiskCache.Put` (cache.go lines 160-176): write the body file, then the
meta file holding `time.Now().Add(ttl).Format(time.RFC3339)`. -/
def Put (fs : FS) (rawURL : String) (body : List Nat) (ttl : Int) (now : Int) : FS :=
  let key := keyFor rawURL
  { bodyF := alPut fs.bodyF key body,
    metaF := alPut fs.metaF key (truncSec (now + ttl)) }

/-- `IsCacheable` (cache.go lines 39-76). -/
def IsCacheable (r : Resp) (now : Int) : Bool :=
  if r.status < 200 || 400 ≤ r.status then false
  else
    let ccL := lcStr r.hdrs.cacheControl
    if strContainsSub ccL "no-store" then false
    else if strContainsSub ccL "private" then false
    else if strContainsSub ccL "max-age" || strContainsSub ccL "s-maxage" then true
    else if (match r.hdrs.expiresAt with | some t => decide (now < t) | none => false) then true
    else if r.hdrs.etag ≠ "" || r.hdrs.lastModified ≠ "" then true
    else false

/-- First index (if any) at which `pat` occurs in `hay` (`strings.Index`). -/
def idxOfSub : List Char → List Char → Option Nat
  | [], pat => if pat.isEmpty then some 0 else none
  | h :: t, pat =>
    if pat.isPrefixOf (h :: t) then some 0
    else (idxOfSub t pat).map (· + 1)

/-- `parseMaxAge` (cache.go lines 112-123): digits up to the next comma or
space, `Atoi` after trimming; non-positive or malformed means 0. -/
def parseMaxAge (cs : List Char) : Int :=
  let seg := cs.takeWhile (fun c => c ≠ ',' && c ≠ ' ')
  let seg := (seg.dropWhile goIsSpace).reverse.dropWhile goIsSpace |>.reverse
  match goAtoi seg with
  | none => 0
  | some secs => if secs ≤ 0 then 0 else secs * perSec

/-- `TTL` (cache.go lines 79-110): `s-maxage` first, then `max-age`, then a
future `Expires`, then the 5-minute validator default. -/
def TTL (r : Resp) (now : Int) : Int :=
  let cc := r.hdrs.cacheControl.toList
  let ccL := (lcStr r.hdrs.cacheControl).toList
  let fromExpires : Int :=
    match r.hdrs.expiresAt with
    | some t => if 0 < t - now then t - now else 5 * 60 * perSec
    | none => 5 * 60 * perSec
  let fromMaxAge : Int :=
    match idxOfSub ccL ("max-age=".toList) with
    | some i =>
      let d := parseMaxAge (cc.drop (i + 8))
      if 0 < d then d else fromExpires
    | none => fromExpires
  match idxOfSub ccL ("s-maxage=".toList) with
  | some i =>
    let d := parseMaxAge (cc.drop (i + 9))
    if 0 < d then d else fromMaxAge
  | none => fromMaxAge

end Cache

namespace Mitm

/- internal/mitm/mitm.go -/

/-- The leaf-certificate fields the claims mention: subject common name, SAN
DNS names, serial (the code uses `time.Now().UnixNano()`, so the mint instant
is the explicit `serialNow` argument below). -/
structure LeafCert where
  cn : String
  sans : List String
  serial : Int
deriving DecidableEq

/-- Manager state: the in-memory `cache` map and the disk cache directory,
whose certificate files are keyed by their file name `<domain>-cert.pem`.
`hasDir` is `cacheDir != ""`. -/
structure St where
  mem : List (String × LeafCert) := []
  diskFiles : List (String × LeafCert) := []
  hasDir : Bool := true
deriving DecidableEq

/-- `net.SplitHostPort`, the fragment reachable here: succeeds exactly when
the string has a single colon (bracketed IPv6 literals are not modelled; no
claim uses them). -/
def splitHostPort (s : String) : Option String :=
  match splitOnChar ':' s.toList with
  | [h, _] => some (String.mk h)
  | _ => none

/-- `generateDomainCert` (mitm.go lines 201-256): strip the port for the
certificate subject and SANs, serial from the clock. -/
def generateDomainCert (domain : String) (serialNow : Int) : LeafCert :=
  let host := (splitHostPort domain).getD domain
  let sans :=
    [host] ++ (if host ≠ "" && host.toList.headD ' ' ≠ '*' then ["*." ++ host] else [])
  { cn := host, sans := sans, serial := serialNow }

/-- `GetCertForDomain` (mitm.go lines 153-198): memory cache, then disk cache
when a directory is configured, else mint; the memory cache and the disk
files are keyed by the `domain` argument as given. -/
def GetCertForDomain (st : St) (domain : String) (serialNow : Int) : LeafCert × St :=
  match alGet st.mem domain with
  | some c => (c, st)
  | none =>
    let diskHit := if st.hasDir then alGet st.diskFiles (domain ++ "-cert.pem") else none
    match diskHit with
    | some c => (c, { st with mem := alPut st.mem domain c })
    | none =>
      let c := generateDomainCert domain serialNow
      let withMem := { st with mem := alPut st.mem domain c }
      let withDisk :=
        if st.hasDir then
          { withMem with diskFiles := alPut withMem.diskFiles (domain ++ "-cert.pem") c }
        else withMem
      (c, withDisk)

end Mitm

namespace Proxy

/- internal/proxy/proxy.go -/

/-- What the client of a plain proxied request receives: either the
round-tripped response or an `http.Error` status line. -/
inductive ClientMsg where
  | resp (r : Resp)
  | errText (status : Nat)
deriving DecidableEq

/-- `handleHTTP` (proxy.go lines 129-152): non-absolute URI → 400; transport
error → 502; otherwise stream the response. -/
def handleHTTP (isAbs : Bool) (rt : Except String Resp) : ClientMsg :=
  if !isAbs then ClientMsg.errText 400
  else
    match rt with
    | Except.error _ => ClientMsg.errText 502
    | Except.ok r => ClientMsg.resp r

/-- The inner-request loop of `handleConnectMITM` (proxy.go lines 228-255):
each element of `steps` is the transport outcome of one inner request read
off the TLS stream (the list ends where the read loop would see EOF).
Returns the responses written back to the client: a transport error breaks
the loop without writing anything. -/
def mitmServeLoop : List (Except String Resp) → List Resp
  | [] => []
  | Except.error _ :: _ => []
  | Except.ok r :: rest => r :: mitmServeLoop rest

/-- `handleConnectMITM` (proxy.go lines 193-255): certificate failure answers
500 and never starts the session; otherwise the session writes the responses
of `mitmServeLoop`. -/
def handleConnectMITM (certOk : Bool) (steps : List (Except String Resp)) :
    Option (List Resp) :=
  if !certOk then none
  else some (mitmServeLoop steps)

end Proxy

namespace Middleware

/- internal/middleware: Decompress lives beside middleware.go and dispatches
on the Content-Encoding name; the deflate branch is `flate.NewReader`, raw
DEFLATE per RFC 1951 with no zlib wrapper. -/

/-- Raw-DEFLATE (RFC 1951) decoding, the stored-block fragment: the behaviour
of Go's `compress/flate` reader on streams made of stored (BTYPE=00) blocks.
A block header byte carries BFINAL in bit 0 and BTYPE in bits 1-2; a stored
block then realigns to a byte boundary (discarding the rest of the header
byte) and carries LEN / NLEN as little-endian 16-bit words, NLEN the ones'
complement of LEN, then LEN literal bytes.  Compressed block types (BTYPE 1
and 2) are outside the modelled fragment and return `none`, as does the
reserved BTYPE 3 and any truncated or corrupt stream — every theorem below
evaluates the decoder on stored-block streams only. -/
def inflLoop : Nat → List Nat → List Nat → Option (List Nat)
  | 0, _, _ => none
  | _ + 1, [], _ => none
  | fuel + 1, hdr :: rest, acc =>
    let bfinal := hdr % 2
    let btype := (hdr / 2) % 4
    if btype = 0 then
      match rest with
      | l0 :: l1 :: n0 :: n1 :: r =>
        let len := l0 + 256 * l1
        let nlen := n0 + 256 * n1
        if nlen ≠ Nat.xor len 65535 then none
        else if r.length < len then none
        else
          let acc2 := acc ++ r.take len
          if bfinal = 1 then some acc2
          else inflLoop fuel (r.drop len) acc2
      | _ => none
    else none

/-- Full raw-DEFLATE read of a byte stream (stored-block fragment). -/
def inflateStored (bs : List Nat) : Option (List Nat) :=
  inflLoop (bs.length + 1) bs []

/-- The single-final-stored-block raw-DEFLATE encoding of a plaintext of
fewer than 65536 bytes: header byte 1 (BFINAL=1, BTYPE=00), LEN and NLEN
little-endian, then the plaintext verbatim. -/
def deflateStored (b : List Nat) : List Nat :=
  let len := b.length
  let nlen := Nat.xor len 65535
  1 :: len % 256 :: len / 256 :: nlen % 256 :: nlen / 256 :: b

/-- Outcome of building a decoder with `Decompress` and draining it:
`mkErr` is an error from `Decompress` itself (bad gzip header, unsupported
encoding), `readErr` an error surfaced while reading the returned reader
(corrupt deflate data). -/
inductive DecodeOut where
  | ok (bytes : List Nat)
  | mkErr
  | readErr
deriving DecidableEq

/-- `Decompress` (the switch on the lowercased, trimmed encoding name)
composed with a full read of the returned reader.  gzip decoding is Go
standard-library code external to this repository, so it is the argument
`gz`; the deflate branch is `flate.NewReader`, raw RFC 1951 inflation. -/
def DecompressRead (gz : List Nat → DecodeOut) (body : List Nat) (encoding : String) :
    DecodeOut :=
  match lcStr (trimSp encoding) with
  | "gzip" => gz body
  | "deflate" =>
    match inflateStored body with
    | some d => DecodeOut.ok d
    | none => DecodeOut.readErr
  | "identity" => DecodeOut.ok body
  | "" => DecodeOut.ok body
  | _ => DecodeOut.mkErr

/-- The RFC 1950 zlib stream produced by `zlib.NewWriterLevel(w, 0)` for the
plaintext `hello`: a two-byte zlib header `78 01`, the embedded stored-block
deflate data, and a four-byte Adler-32 trailer.  This is the wire form
commonly sent for `Content-Encoding: deflate`. -/
def zlibHello : List Nat :=
  [0x78, 0x01, 0x01, 0x05, 0x00, 0xFA, 0xFF, 104, 101, 108, 108, 111, 0x06, 0x2C, 0x02, 0x15]

end Middleware

namespace Converter

/- internal/converter/json.go and converter.go -/

/-- The opening brace character, written by code point to keep string and
character literals brace-free. -/
def lbrace : Char := Char.ofNat 123

/-- The closing brace character. -/
def rbrace : Char := Char.ofNat 125

/-- Two opening braces, a Mustache tag opener. -/
def ob : String := "\x7b\x7b"

/-- Three opening braces, a raw Mustache tag opener. -/
def obr : String := "\x7b\x7b\x7b"

/-- Two closing braces. -/
def cb : String := "\x7d\x7d"

/-- Three closing braces. -/
def cbr : String := "\x7d\x7d\x7d"

/-- `IsHTMLContentType` (converter.go lines 19-22). -/
def IsHTMLContentType (ct : String) : Bool :=
  strContainsSub (lcStr ct) "text/html"

/-- `IsJSONContentType` (json.go lines 13-16). -/
def IsJSONContentType (ct : String) : Bool :=
  strContainsSub (lcStr ct) "application/json"

/-- The values `encoding/json.Unmarshal` produces into `any`: null, bool,
number (the literal is kept as written — no claim renders a number, so
float64 formatting is not modelled), string, `[]any` and `map[string]any`.
Objects are association lists with distinct keys (a duplicate key overwrites,
as in a Go map). -/
inductive JValue where
  | jnull
  | jbool (b : Bool)
  | jnum (lit : String)
  | jstr (s : String)
  | jarr (xs : List JValue)
  | jobj (fields : List (String × JValue))

/-- JSON whitespace (`encoding/json`): space, tab, newline, carriage
return. -/
def jsonWs (c : Char) : Bool :=
  c = ' ' || c = '\t' || c = '\n' || c = '\r'

/-- Drop leading JSON whitespace. -/
def skipWs (cs : List Char) : List Char := cs.dropWhile jsonWs

/-- Hexadecimal digit value. -/
def hexVal (c : Char) : Option Nat :=
  if '0' ≤ c && c ≤ '9' then some (c.toNat - 48)
  else if 'a' ≤ c && c ≤ 'f' then some (c.toNat - 87)
  else if 'A' ≤ c && c ≤ 'F' then some (c.toNat - 55)
  else none

/-- JSON string body after the opening quote: literal characters (raw
control characters rejected, as `encoding/json` rejects them) and the
escapes of RFC 8259.  Surrogate-pair `\u` escapes are outside the modelled
fragment (no claim uses them). -/
def parseStrAux : Nat → List Char → List Char → Option (List Char × List Char)
  | 0, _, _ => none
  | _ + 1, [], _ => none
  | f + 1, c :: rest, acc =>
    if c = '"' then some (acc.reverse, rest)
    else if c = '\\' then
      match rest with
      | [] => none
      | e :: rest2 =>
        if e = '"' then parseStrAux f rest2 ('"' :: acc)
        else if e = '\\' then parseStrAux f rest2 ('\\' :: acc)
        else if e = '/' then parseStrAux f rest2 ('/' :: acc)
        else if e = 'b' then parseStrAux f rest2 (Char.ofNat 8 :: acc)
        else if e = 'f' then parseStrAux f rest2 (Char.ofNat 12 :: acc)
        else if e = 'n' then parseStrAux f rest2 ('\n' :: acc)
        else if e = 'r' then parseStrAux f rest2 ('\r' :: acc)
        else if e = 't' then parseStrAux f rest2 ('\t' :: acc)
        else if e = 'u' then
          match rest2 with
          | h1 :: h2 :: h3 :: h4 :: rest3 =>
            match hexVal h1, hexVal h2, hexVal h3, hexVal h4 with
            | some a, some b, some c2, some d =>
              let v := ((a * 16 + b) * 16 + c2) * 16 + d
              if 0xD800 ≤ v && v < 0xE000 then none
              else parseStrAux f rest3 (Char.ofNat v :: acc)
            | _, _, _, _ => none
          | _ => none
        else none
    else if c.toNat < 32 then none
    else parseStrAux f rest (c :: acc)

/-- Decimal digit run. -/
def takeDigits (cs : List Char) : List Char × List Char :=
  (cs.takeWhile Char.isDigit, cs.dropWhile Char.isDigit)

/-- Optional JSON fraction part. -/
def parseFrac (cs : List Char) : Option (List Char × List Char) :=
  match cs with
  | '.' :: r =>
    let (ds, r2) := takeDigits r
    if ds.isEmpty then none else some ('.' :: ds, r2)
  | _ => some ([], cs)

/-- Optional JSON exponent part. -/
def parseExp (cs : List Char) : Option (List Char × List Char) :=
  match cs with
  | e :: r =>
    if e = 'e' || e = 'E' then
      let (sgn, r1) := match r with
        | '+' :: r2 => (['+'], r2)
        | '-' :: r2 => (['-'], r2)
        | _ => (([] : List Char), r)
      let (ds, r2) := takeDigits r1
      if ds.isEmpty then none else some (e :: (sgn ++ ds), r2)
    else some ([], cs)
  | [] => some ([], cs)

/-- JSON number literal: optional minus, integer part without redundant
leading zeros, optional fraction and exponent.  Returns the literal and the
rest. -/
def parseNum (cs : List Char) : Option (List Char × List Char) :=
  let (sgn, cs1) := match cs with
    | '-' :: r => (['-'], r)
    | _ => (([] : List Char), cs)
  match cs1 with
  | '0' :: r => do
    let (fr, r2) ← parseFrac r
    let (ex, r3) ← parseExp r2
    some (sgn ++ '0' :: (fr ++ ex), r3)
  | c :: r =>
    if c.isDigit then do
      let (ds, r1) := takeDigits (c :: r)
      let (fr, r2) ← parseFrac r1
      let (ex, r3) ← parseExp r2
      some (sgn ++ ds ++ fr ++ ex, r3)
    else none
  | [] => none

mutual

/-- Recursive-descent JSON value, fuel-bounded (fuel is structural; the
entry point supplies more than the input length can consume). -/
def parseVal : Nat → List Char → Option (JValue × List Char)
  | 0, _ => none
  | f + 1, cs0 =>
    let cs := skipWs cs0
    match cs with
    | 'n' :: 'u' :: 'l' :: 'l' :: rest => some (JValue.jnull, rest)
    | 't' :: 'r' :: 'u' :: 'e' :: rest => some (JValue.jbool true, rest)
    | 'f' :: 'a' :: 'l' :: 's' :: 'e' :: rest => some (JValue.jbool false, rest)
    | '"' :: rest =>
      (parseStrAux (rest.length + 1) rest []).map
        (fun p => (JValue.jstr (String.mk p.fst), p.snd))
    | c :: rest =>
      if c = lbrace then
        let cs1 := skipWs rest
        match cs1 with
        | d :: rest2 =>
          if d = rbrace then some (JValue.jobj [], rest2)
          else parseMembers f cs1 []
        | [] => none
      else if c = '[' then
        let cs1 := skipWs rest
        match cs1 with
        | ']' :: rest2 => some (JValue.jarr [], rest2)
        | _ => parseItems f cs1 []
      else
        (parseNum cs).map (fun p => (JValue.jnum (String.mk p.fst), p.snd))
    | [] => none

/-- Object members: key string, colon, value, then comma or closing
brace. -/
def parseMembers : Nat → List Char → List (String × JValue) → Option (JValue × List Char)
  | 0, _, _ => none
  | f + 1, cs, acc =>
    match skipWs cs with
    | '"' :: rest => do
      let (key, r1) ← parseStrAux (rest.length + 1) rest []
      match skipWs r1 with
      | ':' :: r2 => do
        let (v, r3) ← parseVal f r2
        let acc2 := alPut acc (String.mk key) v
        match skipWs r3 with
        | ',' :: r4 => parseMembers f r4 acc2
        | d :: r4 =>
          if d = rbrace then some (JValue.jobj acc2, r4) else none
        | [] => none
      | _ => none
    | _ => none

/-- Array items: value, then comma or closing bracket. -/
def parseItems : Nat → List Char → List JValue → Option (JValue × List Char)
  | 0, _, _ => none
  | f + 1, cs, acc => do
    let (v, r1) ← parseVal f cs
    match skipWs r1 with
    | ',' :: r2 => parseItems f r2 (acc ++ [v])
    | ']' :: r2 => some (JValue.jarr (acc ++ [v]), r2)
    | _ => none

end

/-- `encoding/json.Unmarshal` into `any`: one value, optionally surrounded
by whitespace, nothing else. -/
def jsonParse (cs : List Char) : Option JValue :=
  match parseVal (2 * cs.length + 16) cs with
  | some (v, rest) => if (skipWs rest).isEmpty then some v else none
  | none => none

/-- Go's byte-wise string ordering (`s < t` as `sort.Strings` uses it), on
character lists; byte-exact for the ASCII keys all theorems use. -/
def listLtB : List Char → List Char → Bool
  | [], [] => false
  | [], _ :: _ => true
  | _ :: _, [] => false
  | a :: as, b :: bs =>
    if a.toNat < b.toNat then true
    else if b.toNat < a.toNat then false
    else listLtB as bs

/-- Go string `<` on strings. -/
def strLtB (a b : String) : Bool := listLtB a.toList b.toList

/-- Stable insertion of a field by key order (`sort.Strings` on the key
set; the map pairs keys with their values, which is equivalent because map
keys are distinct). -/
def insFieldSorted (x : String × JValue) : List (String × JValue) → List (String × JValue)
  | [] => [x]
  | y :: r => if strLtB x.fst y.fst then x :: y :: r else y :: insFieldSorted x r

/-- Fields sorted by key, alphabetically (`sortedKeys`, json.go lines
161-168, paired with the corresponding values). -/
def sortFields : List (String × JValue) → List (String × JValue)
  | [] => []
  | x :: r => insFieldSorted x (sortFields r)

/-- Keys of a map, sorted (`sortedKeys`). -/
def sortedKeys (fields : List (String × JValue)) : List String :=
  (sortFields fields).map Prod.fst

/-- The NUL-joined sorted key set used by `consistentObjectKeys` (json.go
line 132). -/
def keySetOf (fields : List (String × JValue)) : String :=
  String.intercalate (String.mk [Char.ofNat 0]) (sortedKeys fields)

/-- `consistentObjectKeys` (json.go lines 123-144): the sorted key list when
every element is an object with exactly the same key set, else `none`. -/
def consistentObjectKeys (arr : List JValue) : Option (List String) :=
  match arr with
  | [] => none
  | first :: rest =>
    match first with
    | JValue.jobj f =>
      let keys := sortedKeys f
      let ks := keySetOf f
      if rest.all (fun e =>
          match e with
          | JValue.jobj g => decide (keySetOf g = ks)
          | _ => false) then
        some keys
      else none
    | _ => none

/-- `allPrimitives` (json.go lines 148-158). -/
def allPrimitives (arr : List JValue) : Bool :=
  arr.all fun e =>
    match e with
    | JValue.jstr _ => true
    | JValue.jnum _ => true
    | JValue.jbool _ => true
    | JValue.jnull => true
    | _ => false

/-- `generateArrayTemplate` (json.go lines 87-119).  The final `headingLevel`
parameter is carried but, as in the source, never used.  The mixed-array
branch of the source writes the same three strings as the all-primitives
branch, so both reduce to the bulleted section. -/
def genArr (arr : List JValue) (sectionKey : String) (_headingLevel : Nat) : String :=
  if arr.isEmpty then
    ob ++ "#" ++ sectionKey ++ cb ++ "\n" ++ ob ++ "/" ++ sectionKey ++ cb ++ "\n\n"
  else
    match consistentObjectKeys arr with
    | some cols =>
      let cells := cols.map (fun col => obr ++ col ++ cbr)
      "| " ++ String.intercalate " | " cols ++ " |\n" ++
        "|" ++ String.join (cols.map (fun _ => "---|")) ++ "\n" ++
        ob ++ "#" ++ sectionKey ++ cb ++ "\n" ++
        "| " ++ String.intercalate " | " cells ++ " |\n" ++
        ob ++ "/" ++ sectionKey ++ cb ++ "\n\n"
    | none =>
      ob ++ "#" ++ sectionKey ++ cb ++ "\n- " ++ obr ++ "." ++ cbr ++ "\n" ++
        ob ++ "/" ++ sectionKey ++ cb ++ "\n\n"

mutual

/-- Structural size of a JSON value, used as fuel for template
generation. -/
def jsize : JValue → Nat
  | JValue.jobj fields => 1 + jsizeFields fields
  | JValue.jarr xs => 1 + jsizeList xs
  | _ => 1

/-- Structural size of object fields. -/
def jsizeFields : List (String × JValue) → Nat
  | [] => 0
  | (_, v) :: rest => 1 + jsize v + jsizeFields rest

/-- Structural size of array elements. -/
def jsizeList : List JValue → Nat
  | [] => 0
  | v :: rest => 1 + jsize v + jsizeList rest

end

/-- The object branch of `generateTemplateRecursive` (json.go lines 53-74):
walk the fields in sorted key order, emitting a heading per key, recursing
into nested objects with a deeper heading, delegating arrays, and emitting a
raw reference for primitives.  Fuel-bounded; the entry point supplies more
than the structure can consume. -/
def genFieldsF : Nat → List (String × JValue) → String → Nat → String
  | 0, _, _, _ => ""
  | _ + 1, [], _, _ => ""
  | f + 1, (key, val) :: rest, pfx, lvl =>
    let ref := if pfx = "" then key else pfx ++ "." ++ key
    let heading := String.mk (List.replicate lvl '#')
    heading ++ " " ++ key ++ "\n\n" ++
      (match val with
       | JValue.jobj f2 => genFieldsF f (sortFields f2) ref (lvl + 1)
       | JValue.jarr xs => genArr xs key (lvl + 1)
       | _ => obr ++ ref ++ cbr ++ "\n\n") ++
      genFieldsF f rest pfx lvl

/-- `generateTemplateRecursive` at the top level (json.go lines 51-83). -/
def genRecTop (v : JValue) : String :=
  match v with
  | JValue.jobj fields => genFieldsF (2 * jsize v + 2) (sortFields fields) "" 2
  | JValue.jarr xs => genArr xs "." 2
  | _ => obr ++ "." ++ cbr ++ "\n"

/-- `GenerateTemplate` (json.go lines 42-46). -/
def GenerateTemplate (v : JValue) : String := genRecTop v

/- Modelled from the spec: the `github.com/cbroglie/mustache` engine is
external to the repository; spec.md §4.4 requires "a Mustache 1.2-compatible
engine: unescaped output with triple-brace syntax, section and
inverted-section blocks, dotted paths, iteration over array contexts", and
`TemplateError` on unbalanced sections or malformed tags.  The model below
implements exactly that fragment.  Standalone-tag line trimming (a
whitespace-only normalisation the Mustache spec applies around section tags
on lines of their own) is not modelled; it only removes whitespace and
newlines around such tags and cannot affect the substring-and-line-order
properties proved here. -/

/-- Mustache lexical tokens. -/
inductive MTok where
  | mtext (s : List Char)
  | mvar (name : String) (raw : Bool)
  | mopen (name : String) (inverted : Bool)
  | mclose (name : String)
  | mcomment

/-- Text up to the first double-open-brace; returns the text and, when a tag
opener was found, the rest after it. -/
def findOpenTag : List Char → List Char × Option (List Char)
  | [] => ([], none)
  | c :: rest =>
    if c = lbrace && rest.headD ' ' = lbrace then ([], some (rest.drop 1))
    else
      let p := findOpenTag rest
      (c :: p.fst, p.snd)

/-- Content up to the first occurrence of `closer` (a run of closing
braces); `none` when the tag is never closed. -/
def findCloseTag (closer : List Char) : List Char → Option (List Char × List Char)
  | [] => none
  | c :: rest =>
    if closer.isPrefixOf (c :: rest) then some ([], (c :: rest).drop closer.length)
    else
      (findCloseTag closer rest).map (fun p => (c :: p.fst, p.snd))

/-- One tag body (the characters between the braces, sigil included) to a
token. -/
def tagToTok (body : List Char) : Option MTok :=
  match body with
  | '#' :: nm => some (MTok.mopen (trimSp (String.mk nm)) false)
  | '^' :: nm => some (MTok.mopen (trimSp (String.mk nm)) true)
  | '/' :: nm => some (MTok.mclose (trimSp (String.mk nm)))
  | '!' :: _ => some MTok.mcomment
  | '&' :: nm => some (MTok.mvar (trimSp (String.mk nm)) true)
  | '>' :: _ => none
  | nm => some (MTok.mvar (trimSp (String.mk nm)) false)

/-- Fuel-bounded Mustache tokenizer: interleaved text and tags; triple
braces open a raw tag; an unterminated or malformed tag is an error. -/
def tokenizeF : Nat → List Char → Option (List MTok)
  | 0, _ => none
  | f + 1, cs =>
    match findOpenTag cs with
    | (text, none) => some (if text.isEmpty then [] else [MTok.mtext text])
    | (text, some afterOpen) =>
      let textToks := if text.isEmpty then [] else [MTok.mtext text]
      match afterOpen with
      | c :: rest =>
        if c = lbrace then do
          let (body, rest2) ← findCloseTag [rbrace, rbrace, rbrace] rest
          let toks ← tokenizeF f rest2
          some (textToks ++ MTok.mvar (trimSp (String.mk body)) true :: toks)
        else do
          let (body, rest2) ← findCloseTag [rbrace, rbrace] afterOpen
          let tok ← tagToTok body
          let toks ← tokenizeF f rest2
          some (textToks ++ tok :: toks)
      | [] => none

/-- Mustache abstract syntax: text, variables, and (possibly inverted)
sections. -/
inductive MAst where
  | atext (s : List Char)
  | avar (path : List String) (raw : Bool)
  | asec (path : List String) (inverted : Bool) (body : List MAst)

/-- A tag name to a lookup path: `.` is the implicit iterator (the current
context), otherwise a dotted path. -/
def toPath (name : String) : List String :=
  if name = "." then []
  else (splitOnChar '.' name.toList).map String.mk

/-- Fuel-bounded parsing of a token stream into a forest; returns the forest
and, when stopped by a close tag, its name with the remaining tokens.
Mismatched or missing close tags are errors (`TemplateError`). -/
def parseSeq : Nat → List MTok → Option (List MAst × Option (String × List MTok))
  | 0, _ => none
  | _ + 1, [] => some ([], none)
  | f + 1, t :: rest =>
    match t with
    | MTok.mtext s => (parseSeq f rest).map (fun p => (MAst.atext s :: p.fst, p.snd))
    | MTok.mvar n raw =>
      (parseSeq f rest).map (fun p => (MAst.avar (toPath n) raw :: p.fst, p.snd))
    | MTok.mcomment => parseSeq f rest
    | MTok.mclose n => some ([], some (n, rest))
    | MTok.mopen n inv =>
      match parseSeq f rest with
      | some (body, some (cn, rest2)) =>
        if cn = n then
          (parseSeq f rest2).map (fun p => (MAst.asec (toPath n) inv body :: p.fst, p.snd))
        else none
      | some (_, none) => none
      | none => none

/-- Parse a whole template; a stray close tag is an error. -/
def parseTemplate (tpl : String) : Option (List MAst) :=
  let cs := tpl.toList
  match tokenizeF (cs.length + 1) cs with
  | none => none
  | some toks =>
    match parseSeq (toks.length + 1) toks with
    | some (asts, none) => some asts
    | _ => none

/-- Mustache truthiness: false, null, and the empty array are falsy;
objects, numbers and non-empty data are truthy (empty strings are treated as
truthy; no claim exercises a string-valued section). -/
def jTruthy : JValue → Bool
  | JValue.jnull => false
  | JValue.jbool b => b
  | JValue.jarr xs => !xs.isEmpty
  | JValue.jobj _ => true
  | JValue.jstr _ => true
  | JValue.jnum _ => true

/-- Resolve one key against the context stack, nearest context first. -/
def lookupKey : List JValue → String → Option JValue
  | [], _ => none
  | v :: rest, key =>
    match v with
    | JValue.jobj fields =>
      match alGet fields key with
      | some x => some x
      | none => lookupKey rest key
    | _ => lookupKey rest key

/-- Navigate the tail of a dotted path inside one value. -/
def navigate : JValue → List String → Option JValue
  | v, [] => some v
  | JValue.jobj fields, k :: ks => (alGet fields k).bind (fun v => navigate v ks)
  | _, _ :: _ => none

/-- Resolve a full path: empty path is the current (top) context; otherwise
the head resolves against the stack and the tail navigates within. -/
def lookupPath (stack : List JValue) : List String → Option JValue
  | [] => stack.head?
  | k :: ks => (lookupKey stack k).bind (fun v => navigate v ks)

/-- Interpolated rendering of a primitive value (composite values never
appear under the interpolations the generated templates emit). -/
def showVal : JValue → String
  | JValue.jstr s => s
  | JValue.jnum lit => lit
  | JValue.jbool true => "true"
  | JValue.jbool false => "false"
  | JValue.jnull => ""
  | JValue.jarr _ => ""
  | JValue.jobj _ => ""

/-- HTML escaping of `{{x}}` interpolations (Go `template.HTMLEscape`). -/
def escapeHTML (s : String) : String :=
  String.join (s.toList.map fun c =>
    if c = '&' then "&amp;"
    else if c = '<' then "&lt;"
    else if c = '>' then "&gt;"
    else if c = '"' then "&#34;"
    else if c = '\'' then "&#39;"
    else String.mk [c])

mutual

/-- Fuel-bounded rendering of a Mustache forest against a context stack. -/
def renderAstF : Nat → List JValue → List MAst → String
  | 0, _, _ => ""
  | _ + 1, _, [] => ""
  | f + 1, stack, a :: rest =>
    (match a with
     | MAst.atext s => String.mk s
     | MAst.avar path raw =>
       match lookupPath stack path with
       | none => ""
       | some v => if raw then showVal v else escapeHTML (showVal v)
     | MAst.asec path inv body =>
       let vOpt := lookupPath stack path
       if inv then
         match vOpt with
         | none => renderAstF f stack body
         | some v => if jTruthy v then "" else renderAstF f stack body
       else
         match vOpt with
         | none => ""
         | some v =>
           if !jTruthy v then ""
           else
             match v with
             | JValue.jarr xs => renderEach f xs stack body
             | _ => renderAstF f (v :: stack) body) ++
      renderAstF f stack rest

/-- Render a section body once per array element, element pushed. -/
def renderEach : Nat → List JValue → List JValue → List MAst → String
  | 0, _, _, _ => ""
  | _ + 1, [], _, _ => ""
  | f + 1, x :: xs, stack, body =>
    renderAstF f (x :: stack) body ++ renderEach f xs stack body

end

/-- Fuel for rendering: generous bound from template and data size. -/
def renderFuel (tpl : String) (v : JValue) : Nat :=
  (tpl.length + 2) * (jsize v + 2) + 64

/-- `mustache.Render`: parse then render against the data. -/
def mustacheRender (tpl : String) (v : JValue) : Option String :=
  (parseTemplate tpl).map (fun asts => renderAstF (renderFuel tpl v) [v] asts)

/-- Bytes to the Go string holding them (byte-exact for ASCII, which is all
the concrete theorems use). -/
def bytesToStr (bs : List Nat) : String :=
  String.mk (bs.map (fun b => Char.ofNat (b % 256)))

/-- UTF-8 encoding of one character. -/
def utf8Char (c : Char) : List Nat :=
  let n := c.toNat
  if n < 0x80 then [n]
  else if n < 0x800 then [0xC0 + n / 64, 0x80 + n % 64]
  else if n < 0x10000 then [0xE0 + n / 4096, 0x80 + n / 64 % 64, 0x80 + n % 64]
  else [0xF0 + n / 262144, 0x80 + n / 4096 % 64, 0x80 + n / 64 % 64, 0x80 + n % 64]

/-- A Go string as its bytes (`[]byte(s)`, and `len s` is its length). -/
def strBytes (s : String) : List Nat :=
  (s.toList.map utf8Char).flatten

/-- `JSONToMarkdown` (json.go lines 21-38): parse, pick or generate a
template, render, trim. -/
def JSONToMarkdown (jsonBytes : List Nat) (mustacheTemplate : String) :
    Except String String :=
  match jsonParse (jsonBytes.map (fun b => Char.ofNat (b % 256))) with
  | none => Except.error "parsing JSON"
  | some data =>
    let tpl := if mustacheTemplate = "" then GenerateTemplate data else mustacheTemplate
    match mustacheRender tpl data with
    | none => Except.error "rendering mustache template"
    | some result => Except.ok (trimSp result)

/-- `HTMLToMarkdown` (converter.go lines 10-16): the conversion itself is the
external `html-to-markdown` library, passed in as `ext`; the repository code
trims its output. -/
def HTMLToMarkdown (ext : String → Except String String) (html : String) :
    Except String String :=
  match ext html with
  | Except.error e => Except.error e
  | Except.ok md => Except.ok (trimSp md)

end Converter

namespace Middleware

/- internal/middleware/middleware.go -/

/-- The `ResponseProcessor` configuration: sizes, conversion switches, and
which optional collaborators are wired (`nil` pointers in Go become `false`
or `none` here).  `tmplStore` carries the template map in its Go iteration
order together with the default template. -/
structure Config where
  maxBodySize : Int := 0
  convertHTML : Bool := false
  convertJSON : Bool := false
  negotiateOnly : Bool := false
  hasTokenCounter : Bool := false
  hasCache : Bool := false
  hasOutput : Bool := false
  tmplStore : Option (List (String × String) × String) := none

/-- The request fields `RoundTrip` reads: the URL (as a string) and the
`Accept` header value. -/
structure Req where
  url : String := ""
  accept : String := ""

/-- External collaborators of the pipeline: the standard-library gzip
decoder, the `html-to-markdown` library, and the tiktoken counter. -/
structure Externals where
  gz : List Nat → DecodeOut
  htmlConvert : String → Except String String
  tokenCount : String → Nat

/-- `wantsMarkdown` (middleware.go lines 41-50): split `Accept` on commas,
strip parameters at the first semicolon, trim, compare case-insensitively
with `text/markdown`. -/
def wantsMarkdown (req : Req) : Bool :=
  (splitOnChar ',' req.accept.toList).any fun part =>
    decide (lcStr (trimSp (String.mk (takeUntilChar ';' part))) = "text/markdown")

/-- The HTML conversion intent (middleware.go lines 72-78): the initial
`isHTML && ConvertHTML` is overwritten with `isHTML && wants` whenever
`NegotiateOnly` is set. -/
def shouldConvertHTML (cfg : Config) (isHTML wants : Bool) : Bool :=
  if cfg.negotiateOnly then isHTML && wants else isHTML && cfg.convertHTML

/-- The JSON conversion intent (middleware.go lines 73-78), same shape. -/
def shouldConvertJSON (cfg : Config) (isJSON wants : Bool) : Bool :=
  if cfg.negotiateOnly then isJSON && wants else isJSON && cfg.convertJSON

/-- The HTML conversion intent as the specification words it (spec.md §4.11
step 4): HTML ∧ conversion-enabled ∧ (¬negotiate-only ∨
client-prefers-markdown).  Stated from the spec's words, for comparison with
the source's `shouldConvertHTML`. -/
def specShouldConvertHTML (cfg : Config) (isHTML wants : Bool) : Bool :=
  isHTML && cfg.convertHTML && (!cfg.negotiateOnly || wants)

/-- The JSON conversion intent as the specification words it, for comparison
with the source's `shouldConvertJSON`. -/
def specShouldConvertJSON (cfg : Config) (isJSON wants : Bool) : Bool :=
  isJSON && cfg.convertJSON && (!cfg.negotiateOnly || wants)

/-- Which return statement of `RoundTrip` produced the response (observer
field recording the exit, so theorems can speak about paths; it carries no
behaviour):
`unchangedP` — the inner response returned with body and headers untouched
(non-HTML/JSON, early JSON bail, decompress error, read error);
`passthroughP` — decoded bytes with resynchronised framing headers
(middleware.go lines 152-157);
`fallthroughP` — a converter failed, decoded bytes under the original
headers (lines 130-132 and 144-146);
`convertedP` — `finalizeMarkdown` (lines 162-187). -/
inductive ExitPath where
  | unchangedP
  | passthroughP
  | fallthroughP
  | convertedP
deriving DecidableEq

/-- `RoundTrip` result: the response, the exit taken, and the side effects
(arguments of `Cache.Put` and `OutputWriter.Write`, when invoked). -/
structure RTOut where
  resp : Resp
  path : ExitPath
  cachePut : Option (String × List Nat × Int) := none
  outputWrite : Option (String × String) := none
deriving DecidableEq

/-- `finalizeMarkdown` (middleware.go lines 162-187): count tokens, write
output, replace the body with the Markdown, resynchronise framing headers,
and add `Vary: accept`. -/
def finalizeMarkdown (cfg : Config) (ext : Externals) (resp : Resp) (req : Req)
    (md : String) (cachePut : Option (String × List Nat × Int)) : RTOut :=
  let mdBytes := Converter.strBytes md
  let h1 :=
    if cfg.hasTokenCounter then
      { resp.hdrs with xTokenCount := some (toString (ext.tokenCount md)) }
    else resp.hdrs
  let ow := if cfg.hasOutput then some (req.url, md) else none
  let hdrs :=
    { h1 with
      contentType := "text/markdown; charset=utf-8"
      contentEncoding := none
      contentLength := some (toString mdBytes.length)
      vary := some "accept" }
  { resp := { resp with hdrs := hdrs, body := mdBytes, contentLength := Int.ofNat mdBytes.length }
    path := ExitPath.convertedP
    cachePut := cachePut
    outputWrite := ow }

/-- The part of `RoundTrip` after a successful decode (middleware.go lines
93-157): bound the read, cache cacheable HTML, route by intent, and build
the outgoing response. -/
def processBody (ext : Externals) (cfg : Config) (req : Req) (resp : Resp) (now : Int)
    (isHTML sCH sCJ : Bool) (decoded : List Nat) : RTOut :=
  let rawBytes :=
    if 0 < cfg.maxBodySize then decoded.take cfg.maxBodySize.toNat else decoded
  let cachePut :=
    if isHTML && cfg.hasCache && Cache.IsCacheable resp now then
      some (req.url, rawBytes, Cache.TTL resp now)
    else none
  if sCJ then
    let tpl :=
      match cfg.tmplStore with
      | some st => Templates.Match st.fst st.snd req.url
      | none => ""
    match Converter.JSONToMarkdown rawBytes tpl with
    | Except.error _ =>
      { resp := { resp with body := rawBytes, contentLength := Int.ofNat rawBytes.length }
        path := ExitPath.fallthroughP
        cachePut := cachePut }
    | Except.ok md => finalizeMarkdown cfg ext resp req md cachePut
  else if sCH then
    match Converter.HTMLToMarkdown ext.htmlConvert (Converter.bytesToStr rawBytes) with
    | Except.error _ =>
      { resp := { resp with body := rawBytes, contentLength := Int.ofNat rawBytes.length }
        path := ExitPath.fallthroughP
        cachePut := cachePut }
    | Except.ok md => finalizeMarkdown cfg ext resp req md cachePut
  else
    { resp :=
        { resp with
          body := rawBytes
          contentLength := Int.ofNat rawBytes.length
          hdrs :=
            { resp.hdrs with
              contentEncoding := none
              contentLength := some (toString rawBytes.length) } }
      path := ExitPath.passthroughP
      cachePut := cachePut }

/-- `ResponseProcessor.RoundTrip` (middleware.go lines 57-158).  `inner` is
the inner transport's outcome; `now` the wall clock read by the cache
helpers.  Stream-read failures after a successful decode are not modelled
(they also return the response unchanged). -/
def RoundTrip (ext : Externals) (cfg : Config) (req : Req)
    (inner : Except String Resp) (now : Int) : Except String RTOut :=
  match inner with
  | Except.error e => Except.error e
  | Except.ok resp =>
    let ct := resp.hdrs.contentType
    let isHTML := Converter.IsHTMLContentType ct
    let isJSON := Converter.IsJSONContentType ct
    if !isHTML && !isJSON then Except.ok { resp := resp, path := ExitPath.unchangedP }
    else
      let wants := wantsMarkdown req
      let sCH := shouldConvertHTML cfg isHTML wants
      let sCJ := shouldConvertJSON cfg isJSON wants
      if !isHTML && !sCJ then Except.ok { resp := resp, path := ExitPath.unchangedP }
      else
        let encoding := resp.hdrs.contentEncoding.getD ""
        match DecompressRead ext.gz resp.body encoding with
        | DecodeOut.mkErr => Except.ok { resp := resp, path := ExitPath.unchangedP }
        | DecodeOut.readErr => Except.ok { resp := resp, path := ExitPath.unchangedP }
        | DecodeOut.ok decoded =>
          Except.ok (processBody ext cfg req resp now isHTML sCH sCJ decoded)

end Middleware

/-- Lines of a string, split on newlines. -/
def linesOf (s : String) : List String := (splitOnChar '\n' s.toList).map String.mk

/-- Index of the first line containing `needle` as a substring. -/
def findLineFrom : List String → String → Option Nat
  | [], _ => none
  | l :: rest, needle =>
    if strContainsSub l needle then some 0
    else (findLineFrom rest needle).map (· + 1)

/-- Whether `s` has a line containing `a`, a strictly later line containing
`b`, and a still later line containing `c`. -/
def hasLineOrder (s a b c : String) : Bool :=
  let ls := linesOf s
  match findLineFrom ls a with
  | none => false
  | some i =>
    let ls2 := ls.drop (i + 1)
    match findLineFrom ls2 b with
    | none => false
    | some j => (findLineFrom (ls2.drop (j + 1)) c).isSome

/- ------------------------------------------------------------------ -/
/- Shared lemmas -/
/- ------------------------------------------------------------------ -/

/-- Looking up a key just written returns the written value. -/
theorem alGet_alPut_same {α : Type} (l : List (String × α)) (k : String) (v : α) :
    alGet (alPut l k v) k = some v := by
  induction l with
  | nil => simp [alPut, alGet]
  | cons h t ih =>
    obtain ⟨hk, hv⟩ := h
    by_cases hkk : hk = k
    · simp [alPut, alGet, hkk]
    · simp [alPut, alGet, hkk, ih]

/- ------------------------------------------------------------------ -/
/- C4 — BodyCache Put/Get round trip -/
/- ------------------------------------------------------------------ -/

/-- C4, counterexample: the claim "`Put(u,b,d); Get(u)` returns `(b,true)`
iff `d > 0` and the clock has not advanced past the Put instant plus `d`"
fails at `d = 0` with no clock advancement: the stored RFC3339 expiry equals
the Put instant and `Get` compares with strict `After`, so the entry is
still a hit although `d > 0` is false. -/
theorem cache_put_get_claim_counterexample :
    ¬ (((Cache.Get (Cache.Put ⟨[], []⟩ "http://e.com" [104] 0 0) "http://e.com" 0).fst
          = some [104]) ↔ ((0 : Int) < 0 ∧ (0 : Int) ≤ 0 + 0)) := by
  decide

/-- C4, amended: after `Put(u,b,d)` at instant `np` into an empty cache
directory, `Get(u)` at instant `ng` returns the body exactly when `ng` is
not past the stored expiry, which is `np + d` truncated to a whole RFC3339
second — with no requirement that `d` be positive. -/
theorem cache_put_get_amended (u : String) (b : List Nat) (d np ng : Int) :
    (Cache.Get (Cache.Put ⟨[], []⟩ u b d np) u ng).fst = some b ↔
      ng ≤ Cache.truncSec (np + d) := by
  constructor
  · intro hget
    by_contra hgt
    push_neg at hgt
    have hnone : (Cache.Get (Cache.Put ⟨[], []⟩ u b d np) u ng).fst = none := by
      simp [Cache.Get, Cache.Put, Cache.keyFor, alGet, hgt]
    rw [hnone] at hget
    exact Option.noConfusion hget
  · intro hle
    have h : ¬ (Cache.truncSec (np + d) < ng) := not_lt.mpr hle
    simp [Cache.Get, Cache.Put, Cache.keyFor, alGet, h]

/- ------------------------------------------------------------------ -/
/- C5 — leaf certificates and port stripping -/
/- ------------------------------------------------------------------ -/

/-- C5, counterexample: after `GetCertForDomain "example.com:443"` on a
fresh manager, neither the in-memory cache nor the disk cache has an entry
under the port-stripped host `example.com`, and a subsequent
`GetCertForDomain "example.com"` mints a different leaf (fresh serial)
instead of returning the cached one: the cache keys keep the port. -/
theorem mitm_cert_claim_counterexample :
    (Mitm.GetCertForDomain
        ((Mitm.GetCertForDomain ⟨[], [], true⟩ "example.com:443" 1).snd)
        "example.com" 2).fst
      ≠ (Mitm.GetCertForDomain ⟨[], [], true⟩ "example.com:443" 1).fst ∧
    alGet ((Mitm.GetCertForDomain ⟨[], [], true⟩ "example.com:443" 1).snd).mem
        "example.com" = none ∧
    alGet ((Mitm.GetCertForDomain ⟨[], [], true⟩ "example.com:443" 1).snd).diskFiles
        "example.com-cert.pem" = none ∧
    alGet ((Mitm.GetCertForDomain ⟨[], [], true⟩ "example.com:443" 1).snd).mem
        "example.com:443" ≠ none := by
  decide

/-- C5, amended: the leaf caches are keyed by the exact `domain` argument
(port included); only the minted certificate's subject and SANs use the
port-stripped host.  Consequently a repeated call with the same domain
string returns the already-minted leaf, and the leaf minted for any domain
carries the port-stripped host as its common name. -/
theorem mitm_cert_amended (st : Mitm.St) (domain : String) (t1 t2 : Int) :
    (Mitm.GetCertForDomain ((Mitm.GetCertForDomain st domain t1).snd) domain t2).fst
      = (Mitm.GetCertForDomain st domain t1).fst ∧
    (Mitm.generateDomainCert domain t1).cn = (Mitm.splitHostPort domain).getD domain := by
  constructor
  · unfold Mitm.GetCertForDomain
    cases hmem : alGet st.mem domain with
    | some c => simp [hmem]
    | none =>
      by_cases hd : st.hasDir
      · cases hdisk : alGet st.diskFiles (domain ++ "-cert.pem") with
        | some c => simp [hmem, hd, hdisk, alGet_alPut_same]
        | none => simp [hmem, hd, hdisk, alGet_alPut_same]
      · simp [hmem, hd, alGet_alPut_same]
  · rfl

/- ------------------------------------------------------------------ -/
/- C3 — transport errors and the 502 answer -/
/- ------------------------------------------------------------------ -/

/-- C3, counterexample: an inner request of a MITM session whose transport
round trip fails does not make the client receive a 502 — the session loop
breaks and writes nothing at all (proxy.go lines 246-250 log and `break`
without an `http.Error`). -/
theorem mitm_transport_error_claim_counterexample :
    Proxy.handleConnectMITM true [Except.error "upstream unreachable"] = some [] := by
  decide

/-- C3, amended: a plain absolute-URI request whose transport round trip
fails is answered with status 502; a failing inner request of a MITM session
instead terminates the session, the client receiving only the responses of
the inner requests served before the failure and nothing for the failing
one. -/
theorem transport_error_surfacing_amended (e : String) (pre : List Resp)
    (post : List (Except String Resp)) :
    Proxy.handleHTTP true (Except.error e) = Proxy.ClientMsg.errText 502 ∧
    Proxy.mitmServeLoop (pre.map Except.ok ++ Except.error e :: post) = pre := by
  constructor
  · rfl
  · induction pre with
    | nil => rfl
    | cons h t ih => simpa [Proxy.mitmServeLoop] using ih

/- ------------------------------------------------------------------ -/
/- C6 — template matching -/
/- ------------------------------------------------------------------ -/

/-- The first `Match` loop never shrinks the best length. -/
theorem matchLongest_ge_best (cmp : List Char) (entries : List (String × String))
    (best : List Char) (bestT : String) :
    best.length ≤ (Templates.matchLongest cmp entries best bestT).fst.length := by
  induction entries generalizing best bestT with
  | nil => simp [Templates.matchLongest]
  | cons e rest ih =>
    obtain ⟨pat, tpl⟩ := e
    simp only [Templates.matchLongest]
    split
    · next hcond =>
      have hlt : best.length < (Templates.stripSchemeL pat.toList).length := by
        have := (Bool.and_eq_true _ _).mp hcond
        exact of_decide_eq_true this.2
      exact le_trans (le_of_lt hlt) (ih _ _)
    · exact ih _ _

/-- The first `Match` loop result is at least as long as every matching
pattern's scheme-stripped form. -/
theorem matchLongest_maximal (cmp : List Char) (q : String × String)
    (hpfx : (Templates.stripSchemeL q.fst.toList).isPrefixOf cmp = true) :
    ∀ (entries : List (String × String)) (best : List Char) (bestT : String),
      q ∈ entries →
        (Templates.stripSchemeL q.fst.toList).length ≤
          (Templates.matchLongest cmp entries best bestT).fst.length := by
  intro entries
  induction entries with
  | nil =>
    intro best bestT hq
    cases hq
  | cons e rest ih =>
    obtain ⟨pat, tpl⟩ := e
    intro best bestT hq
    rcases List.mem_cons.mp hq with hqe | hqrest
    · simp only [Templates.matchLongest]
      split
      · rw [show q.fst = pat from congrArg Prod.fst hqe]
        exact matchLongest_ge_best cmp rest _ _
      · next hcond =>
        have hnot : ¬ ((Templates.stripSchemeL pat.toList).isPrefixOf cmp = true ∧
            best.length < (Templates.stripSchemeL pat.toList).length) := by
          intro hands
          exact hcond ((Bool.and_eq_true _ _).mpr ⟨hands.1, decide_eq_true hands.2⟩)
        have hle : (Templates.stripSchemeL pat.toList).length ≤ best.length := by
          by_contra hgt
          refine hnot ⟨?_, lt_of_not_ge hgt⟩
          rw [← show q.fst = pat from congrArg Prod.fst hqe]
          exact hpfx
        have hq1 : (Templates.stripSchemeL q.fst.toList).length ≤ best.length := by
          rw [show q.fst = pat from congrArg Prod.fst hqe]
          exact hle
        exact le_trans hq1 (matchLongest_ge_best cmp rest _ _)
    · simp only [Templates.matchLongest]
      split
      · exact ih _ _ hqrest
      · exact ih _ _ hqrest

/-- The first `Match` loop either keeps its initial accumulator or returns
the stripped pattern and template of some matching entry. -/
theorem matchLongest_provenance (cmp : List Char) :
    ∀ (entries : List (String × String)) (best : List Char) (bestT : String),
      Templates.matchLongest cmp entries best bestT = (best, bestT) ∨
        ∃ q ∈ entries, (Templates.stripSchemeL q.fst.toList).isPrefixOf cmp = true ∧
          Templates.matchLongest cmp entries best bestT
            = (Templates.stripSchemeL q.fst.toList, q.snd) := by
  intro entries
  induction entries with
  | nil =>
    intro best bestT
    left
    simp [Templates.matchLongest]
  | cons e rest ih =>
    obtain ⟨pat, tpl⟩ := e
    intro best bestT
    simp only [Templates.matchLongest]
    split
    · next hcond =>
      have hpfx : (Templates.stripSchemeL pat.toList).isPrefixOf cmp = true :=
        ((Bool.and_eq_true _ _).mp hcond).1
      rcases ih (Templates.stripSchemeL pat.toList) tpl with hkeep | ⟨q, hq, hqp, hqe⟩
      · right
        exact ⟨(pat, tpl), List.mem_cons_self _ _, hpfx, hkeep⟩
      · right
        exact ⟨q, List.mem_cons_of_mem _ hq, hqp, hqe⟩
    · rcases ih best bestT with hkeep | ⟨q, hq, hqp, hqe⟩
      · left
        exact hkeep
      · right
        exact ⟨q, List.mem_cons_of_mem _ hq, hqp, hqe⟩

/-- C6, counterexample: two distinct patterns (`http://e.com/a` and
`e.com/a`) strip to the same form, which is the unique longest matching
prefix of the URL; `Match` iterates a Go map, so either entry can be seen
first and either template can be returned.  A permutation of the store's
contents flips the result, refuting both the lexical tie-break (the lexical
least pattern is `e.com/a`, template `T2`, yet one order returns `T1`) and
determinism. -/
theorem template_match_claim_counterexample :
    Templates.Match [("http://e.com/a", "T1"), ("e.com/a", "T2")] "" "e.com/a/x" = "T1" ∧
    Templates.Match [("e.com/a", "T2"), ("http://e.com/a", "T1")] "" "e.com/a/x" = "T2" ∧
    List.Perm [("http://e.com/a", "T1"), ("e.com/a", "T2")]
      [("e.com/a", "T2"), ("http://e.com/a", "T1")] ∧
    ("T1" : String) ≠ "T2" := by
  refine ⟨by decide, by decide, ?_, by decide⟩
  exact List.Perm.swap _ _ _

/-- C6, amended: whenever the longest-prefix stage produces a non-empty
template, `Match` returns the template of some entry whose scheme-stripped
pattern is a prefix of the scheme-stripped URL of maximal length among all
matching entries — but which entry wins among those sharing that maximal
stripped form depends on the map iteration order, so the result need not be
the lexically least pattern and two calls need not agree. -/
theorem template_match_amended (entries : List (String × String)) (dflt url : String)
    (hne : (Templates.matchLongest (Templates.stripSchemeL url.toList) entries [] "").snd ≠ "") :
    ∃ p ∈ entries,
      Templates.Match entries dflt url = p.snd ∧
      (Templates.stripSchemeL p.fst.toList).isPrefixOf (Templates.stripSchemeL url.toList) = true ∧
      ∀ q ∈ entries,
        (Templates.stripSchemeL q.fst.toList).isPrefixOf (Templates.stripSchemeL url.toList) = true →
          (Templates.stripSchemeL q.fst.toList).length ≤
            (Templates.stripSchemeL p.fst.toList).length := by
  rcases matchLongest_provenance (Templates.stripSchemeL url.toList) entries [] "" with hkeep | ⟨p, hp, hpfx, heq⟩
  · exact absurd (by rw [hkeep]) hne
  · refine ⟨p, hp, ?_, hpfx, ?_⟩
    · have hps : p.snd ≠ "" := by
        rw [heq] at hne
        exact hne
      simp only [Templates.Match]
      rw [heq]
      simp [hps]
    · intro q hq hqpfx
      have hmax := matchLongest_maximal (Templates.stripSchemeL url.toList) q hqpfx entries [] "" hq
      rw [heq] at hmax
      exact hmax

/-- C6, witness: the amended theorem applied to a one-entry store. -/
theorem template_match_amended_witness :
    ∃ p ∈ [("e.com/a", "T2")],
      Templates.Match [("e.com/a", "T2")] "" "e.com/a/x" = p.snd ∧
      (Templates.stripSchemeL p.fst.toList).isPrefixOf
        (Templates.stripSchemeL "e.com/a/x".toList) = true ∧
      ∀ q ∈ [("e.com/a", "T2")],
        (Templates.stripSchemeL q.fst.toList).isPrefixOf
          (Templates.stripSchemeL "e.com/a/x".toList) = true →
          (Templates.stripSchemeL q.fst.toList).length ≤
            (Templates.stripSchemeL p.fst.toList).length :=
  template_match_amended [("e.com/a", "T2")] "" "e.com/a/x" (by decide)

/- ------------------------------------------------------------------ -/
/- C7 — SafeFilename shape -/
/- ------------------------------------------------------------------ -/

/-- Characters of a built string are its list. -/
theorem toList_mk (l : List Char) : (String.mk l).toList = l := rfl

/-- Characters of an appended string. -/
theorem toList_append (s t : String) : (s ++ t).toList = s.toList ++ t.toList := rfl

/-- Length of an appended string. -/
theorem strLen_append (s t : String) : (s ++ t).length = s.length + t.length := by
  show (s.toList ++ t.toList).length = s.toList.length + t.toList.length
  exact List.length_append _ _

/-- Everything `sanitize` emits is in the safe class. -/
theorem sanitize_safe (s : String) :
    ∀ c ∈ (Output.sanitize s).toList, Output.safeChar c = true := by
  intro c hc
  simp only [Output.sanitize, toList_mk] at hc
  rcases List.mem_map.mp hc with ⟨a, _, rfl⟩
  by_cases h : Output.safeChar a = true
  · rw [if_pos h]
    exact h
  · rw [if_neg h]
    decide

/-- Joining safe parts with `__` stays safe. -/
theorem joinSep_safe (parts : List String)
    (hp : ∀ p ∈ parts, ∀ c ∈ p.toList, Output.safeChar c = true) :
    ∀ c ∈ (Output.joinSep "__" parts).toList, Output.safeChar c = true := by
  induction parts with
  | nil =>
    intro c hc
    cases hc
  | cons x rest ih =>
    cases rest with
    | nil =>
      intro c hc
      exact hp x (List.mem_cons_self _ _) c hc
    | cons y r =>
      intro c hc
      simp only [Output.joinSep, toList_append, List.mem_append] at hc
      rcases hc with (hx | hu) | hrest
      · exact hp x (List.mem_cons_self _ _) c hx
      · have h1 : c = '_' := by
          simpa using hu
        rw [h1]
        decide
      · exact ih (fun p hpm => hp p (List.mem_cons_of_mem _ hpm)) c hrest

/-- `finishName` emits only safe characters when its parts are safe. -/
theorem finishName_safe (parts : List String)
    (hp : ∀ p ∈ parts, ∀ c ∈ p.toList, Output.safeChar c = true) :
    ∀ c ∈ (Output.finishName parts).toList, Output.safeChar c = true := by
  intro c hc
  simp only [Output.finishName] at hc
  by_cases hempty : Output.joinSep "__" parts = ""
  · rw [if_pos hempty] at hc
    by_cases hlen : 200 < ("index" : String).length
    · rw [if_pos hlen] at hc
      rw [toList_mk] at hc
      have hall : ∀ x ∈ ("index" : String).toList, Output.safeChar x = true := by decide
      exact hall c (List.take_subset 200 ("index".toList) hc)
    · rw [if_neg hlen] at hc
      have hall : ∀ x ∈ ("index" : String).toList, Output.safeChar x = true := by decide
      exact hall c hc
  · rw [if_neg hempty] at hc
    by_cases hlen : 200 < (Output.joinSep "__" parts).length
    · rw [if_pos hlen] at hc
      rw [toList_mk] at hc
      exact joinSep_safe parts hp c (List.take_subset _ _ hc)
    · rw [if_neg hlen] at hc
      exact joinSep_safe parts hp c hc

/-- `finishName` never exceeds 200 characters. -/
theorem finishName_len (parts : List String) : (Output.finishName parts).length ≤ 200 := by
  simp only [Output.finishName]
  by_cases hempty : Output.joinSep "__" parts = ""
  · rw [if_pos hempty]
    by_cases hlen : 200 < ("index" : String).length
    · revert hlen
      decide
    · rw [if_neg hlen]
      decide
  · rw [if_neg hempty]
    by_cases hlen : 200 < (Output.joinSep "__" parts).length
    · rw [if_pos hlen]
      show (("".toList ++ (Output.joinSep "__" parts).toList.take 200)).length ≤ 200
      simp [List.length_take]
    · rw [if_neg hlen]
      exact le_of_not_lt hlen

/-- C7, counterexample: the claim "for every input string the result has
length at most 203" fails on the `url.Parse`-error fallback (output.go
lines 37-40), which skips the 200-character truncation: a 231-character
input containing an ASCII control character (which makes Go's `url.Parse`
fail) yields a 234-character filename. -/
theorem safe_filename_claim_counterexample :
    Output.hasCtlChar (String.mk (Char.ofNat 1 :: List.replicate 230 'a')) = true ∧
    203 < (Output.SafeFilename none (String.mk (Char.ofNat 1 :: List.replicate 230 'a'))).length := by
  constructor
  · decide
  · show 203 < (Output.sanitize (String.mk (Char.ofNat 1 :: List.replicate 230 'a')) ++ ".md").length
    rw [strLen_append]
    show 203 < ((Char.ofNat 1 :: List.replicate 230 'a').map _).length + 3
    rw [List.length_map]
    decide

/-- C7, amended: `SafeFilename` always ends in `.md` and always emits only
characters from `[A-Za-z0-9._-]`; its length is at most 203 whenever
`url.Parse` succeeded, while on the parse-error fallback the sanitised
input is used untruncated, so the length is unbounded. -/
theorem safe_filename_amended (parsed : Option Output.GoURL) (rawURL : String) :
    (∃ stem, Output.SafeFilename parsed rawURL = stem ++ ".md") ∧
    (∀ c ∈ (Output.SafeFilename parsed rawURL).toList, Output.safeChar c = true) ∧
    (∀ u, parsed = some u → (Output.SafeFilename parsed rawURL).length ≤ 203) := by
  have hmd : ∀ x ∈ (".md" : String).toList, Output.safeChar x = true := by decide
  cases parsed with
  | none =>
    refine ⟨⟨Output.sanitize rawURL, rfl⟩, ?_, ?_⟩
    · intro c hc
      rw [show Output.SafeFilename none rawURL = Output.sanitize rawURL ++ ".md" from rfl,
        toList_append, List.mem_append] at hc
      rcases hc with hs | hm
      · exact sanitize_safe rawURL c hs
      · exact hmd c hm
    · intro u hu
      cases hu
  | some u =>
    have hparts : ∀ p ∈ ((if u.host ≠ "" then [Output.sanitize u.host] else []) ++
        (if Output.trimSlashes u.path ≠ "" then
            ((splitOnChar '/' (Output.trimSlashes u.path).toList).map
              (fun seg => Output.sanitize (String.mk seg))).filter (fun s => s ≠ "")
          else []) ++
        (if u.rawQuery ≠ "" then [Output.sanitize u.rawQuery] else [])),
        ∀ c ∈ p.toList, Output.safeChar c = true := by
      intro p hpm
      rcases List.mem_append.mp hpm with hab | hq
      · rcases List.mem_append.mp hab with hh | hpth
        · by_cases hcond : u.host ≠ ""
          · rw [if_pos hcond] at hh
            rcases List.mem_singleton.mp hh with rfl
            exact sanitize_safe u.host
          · rw [if_neg hcond] at hh
            cases hh
        · by_cases hcond : Output.trimSlashes u.path ≠ ""
          · rw [if_pos hcond] at hpth
            have := List.mem_of_mem_filter hpth
            rcases List.mem_map.mp this with ⟨seg, _, rfl⟩
            exact sanitize_safe (String.mk seg)
          · rw [if_neg hcond] at hpth
            cases hpth
      · by_cases hcond : u.rawQuery ≠ ""
        · rw [if_pos hcond] at hq
          rcases List.mem_singleton.mp hq with rfl
          exact sanitize_safe u.rawQuery
        · rw [if_neg hcond] at hq
          cases hq
    refine ⟨⟨_, rfl⟩, ?_, ?_⟩
    · intro c hc
      rw [show Output.SafeFilename (some u) rawURL
          = Output.finishName _ ++ ".md" from rfl, toList_append, List.mem_append] at hc
      rcases hc with hf | hm
      · exact finishName_safe _ hparts c hf
      · exact hmd c hm
    · intro v hv
      cases hv
      rw [show Output.SafeFilename (some u) rawURL
          = Output.finishName _ ++ ".md" from rfl, strLen_append]
      have hlen := finishName_len ((if u.host ≠ "" then [Output.sanitize u.host] else []) ++
        (if Output.trimSlashes u.path ≠ "" then
            ((splitOnChar '/' (Output.trimSlashes u.path).toList).map
              (fun seg => Output.sanitize (String.mk seg))).filter (fun s => s ≠ "")
          else []) ++
        (if u.rawQuery ≠ "" then [Output.sanitize u.rawQuery] else []))
      have hmd3 : (".md" : String).length = 3 := by decide
      omega

/-- C7, witness: the amended theorem applied at a parsed URL and at the
fallback. -/
theorem safe_filename_amended_witness :
    (Output.SafeFilename (some ⟨"e.com", "/a/b", "q=1"⟩) "http://e.com/a/b?q=1").length ≤ 203 :=
  (safe_filename_amended (some ⟨"e.com", "/a/b", "q=1"⟩) "http://e.com/a/b?q=1").2.2 _ rfl

/- ------------------------------------------------------------------ -/
/- C10 — deflate means raw DEFLATE -/
/- ------------------------------------------------------------------ -/

/-- Inflating the stored-block encoding recovers the plaintext. -/
theorem inflate_deflateStored (b : List Nat) :
    Middleware.inflateStored (Middleware.deflateStored b) = some b := by
  unfold Middleware.inflateStored Middleware.deflateStored
  simp [Middleware.inflLoop, Nat.mod_add_div, List.take_length]

/-- C10: `Decompress` with encoding name `deflate` (any case) decodes raw
RFC 1951 DEFLATE with no zlib wrapper — a raw stored-block stream round
trips to the original plaintext, while the zlib-wrapped (RFC 1950) stream
for `hello` fails with a read error (its zlib header is misread as a stored
block whose NLEN check fails, exactly as `compress/flate` reports corrupt
input). -/
theorem decompress_deflate_raw :
    (∀ (gz : List Nat → Middleware.DecodeOut) (b : List Nat), b.length < 65536 →
        Middleware.DecompressRead gz (Middleware.deflateStored b) "DeFlate"
          = Middleware.DecodeOut.ok b) ∧
    (∀ gz : List Nat → Middleware.DecodeOut,
        Middleware.DecompressRead gz Middleware.zlibHello "deflate"
          = Middleware.DecodeOut.readErr) := by
  constructor
  · intro gz b _
    show (match Middleware.inflateStored (Middleware.deflateStored b) with
      | some d => Middleware.DecodeOut.ok d
      | none => Middleware.DecodeOut.readErr) = Middleware.DecodeOut.ok b
    rw [inflate_deflateStored]
  · intro gz
    rfl

/-- C10, witness: the round trip at a concrete two-byte plaintext and the
zlib failure, both by evaluation. -/
theorem decompress_deflate_raw_witness :
    Middleware.DecompressRead (fun _ => Middleware.DecodeOut.mkErr)
        (Middleware.deflateStored [104, 105]) "DeFlate" = Middleware.DecodeOut.ok [104, 105] ∧
    Middleware.DecompressRead (fun _ => Middleware.DecodeOut.mkErr)
        Middleware.zlibHello "deflate" = Middleware.DecodeOut.readErr :=
  ⟨decompress_deflate_raw.1 _ [104, 105] (by decide), decompress_deflate_raw.2 _⟩

/- ------------------------------------------------------------------ -/
/- C8 — JSON array of uniform objects renders as a table -/
/- ------------------------------------------------------------------ -/

/-- C8: on the S3 body with an empty template, `JSONToMarkdown` succeeds and
its output has a line containing `| name | role |`, a later line containing
`| Alice | admin |`, and a still later line containing `| Bob | user |`
(sorted headers, one row per element). -/
theorem json_users_table :
    ∃ md,
      Converter.JSONToMarkdown
          (Converter.strBytes
            "\x7b\x22users\x22:[\x7b\x22name\x22:\x22Alice\x22,\x22role\x22:\x22admin\x22\x7d,\x7b\x22name\x22:\x22Bob\x22,\x22role\x22:\x22user\x22\x7d]\x7d")
          "" = Except.ok md ∧
      hasLineOrder md "| name | role |" "| Alice | admin |" "| Bob | user |" = true := by
  refine ⟨"## users\n\n| name | role |\n|---|---|\n\n| Alice | admin |\n\n| Bob | user |", ?_, ?_⟩
  · decide
  · decide

/- ------------------------------------------------------------------ -/
/- Pipeline lemmas shared by C1, C2 and C9 -/
/- ------------------------------------------------------------------ -/

/-- `finalizeMarkdown` resynchronises the `Content-Length` header with the
Markdown byte length and tags the converted exit. -/
theorem finalizeMarkdown_fields (cfg : Middleware.Config) (ext : Middleware.Externals)
    (resp : Resp) (req : Middleware.Req) (md : String)
    (cp : Option (String × List Nat × Int)) :
    (Middleware.finalizeMarkdown cfg ext resp req md cp).resp.hdrs.contentLength
        = some (toString (Middleware.finalizeMarkdown cfg ext resp req md cp).resp.body.length) ∧
    (Middleware.finalizeMarkdown cfg ext resp req md cp).path = Middleware.ExitPath.convertedP ∧
    (Middleware.finalizeMarkdown cfg ext resp req md cp).cachePut = cp := by
  refine ⟨?_, rfl, rfl⟩
  show some (toString (Converter.strBytes md).length)
      = some (toString (Converter.strBytes md).length)
  rfl

/-- Exit-wise description of `processBody`: the `Content-Length` header is
synchronised with the body on the passthrough and converted exits and left
at the inner response's value on the fallthrough exit; the fallthrough and
passthrough bodies are the (possibly truncated) decoded bytes; the converted
exit only arises under a conversion intent; the unchanged exit never arises;
and any cache write stores the (possibly truncated) decoded bytes. -/
theorem processBody_exit (ext : Middleware.Externals) (cfg : Middleware.Config)
    (req : Middleware.Req) (resp : Resp) (now : Int) (isHTML sCH sCJ : Bool)
    (decoded raw : List Nat) (out : Middleware.RTOut)
    (hraw : raw = if 0 < cfg.maxBodySize then decoded.take cfg.maxBodySize.toNat else decoded)
    (hout : out = Middleware.processBody ext cfg req resp now isHTML sCH sCJ decoded) :
    ((out.path = Middleware.ExitPath.passthroughP ∨ out.path = Middleware.ExitPath.convertedP) →
        out.resp.hdrs.contentLength = some (toString out.resp.body.length)) ∧
    (out.path = Middleware.ExitPath.fallthroughP →
        out.resp.hdrs = resp.hdrs ∧ out.resp.body = raw) ∧
    (out.path = Middleware.ExitPath.passthroughP →
        out.resp.body = raw ∧ out.resp.hdrs.contentLength = some (toString raw.length)) ∧
    (out.path = Middleware.ExitPath.convertedP → sCH = true ∨ sCJ = true) ∧
    (out.path ≠ Middleware.ExitPath.unchangedP) ∧
    (∀ u b2 t, out.cachePut = some (u, b2, t) → b2 = raw) := by
  have hcp : ∀ (cpv : Option (String × List Nat × Int)),
      cpv = (if isHTML && cfg.hasCache && Cache.IsCacheable resp now then
        some (req.url, raw, Cache.TTL resp now) else none) →
      ∀ u b2 t, cpv = some (u, b2, t) → b2 = raw := by
    intro cpv hcpv u b2 t hsome
    rw [hcpv] at hsome
    by_cases hc : (isHTML && cfg.hasCache && Cache.IsCacheable resp now) = true
    · rw [if_pos hc] at hsome
      cases hsome
      rfl
    · rw [if_neg hc] at hsome
      cases hsome
  subst hout
  unfold Middleware.processBody
  rw [← hraw]
  cases sCJ with
  | true =>
    simp only [if_true]
    cases hconv : Converter.JSONToMarkdown raw
        (match cfg.tmplStore with
         | some st => Templates.Match st.fst st.snd req.url
         | none => "") with
    | error e =>
      refine ⟨?_, ?_, ?_, ?_, ?_, ?_⟩
      · intro hp
        rcases hp with hp | hp <;> cases hp
      · intro _
        exact ⟨rfl, rfl⟩
      · intro hp
        cases hp
      · intro hp
        cases hp
      · intro hp
        cases hp
      · exact hcp _ rfl
    | ok md =>
      have hf := finalizeMarkdown_fields cfg ext resp req md
        (if isHTML && cfg.hasCache && Cache.IsCacheable resp now then
          some (req.url, raw, Cache.TTL resp now) else none)
      refine ⟨?_, ?_, ?_, ?_, ?_, ?_⟩
      · intro _
        exact hf.1
      · intro hp
        exact absurd (hf.2.1.symm.trans hp) (by decide)
      · intro hp
        exact absurd (hf.2.1.symm.trans hp) (by decide)
      · intro _
        exact Or.inr trivial
      · intro hp
        exact absurd (hf.2.1.symm.trans hp) (by decide)
      · intro u b2 t hsome
        exact hcp _ rfl u b2 t (hf.2.2.symm.trans hsome)
  | false =>
    cases sCH with
    | true =>
      simp only [if_false, if_true, Bool.false_eq_true]
      cases hconv : Converter.HTMLToMarkdown ext.htmlConvert (Converter.bytesToStr raw) with
      | error e =>
        refine ⟨?_, ?_, ?_, ?_, ?_, ?_⟩
        · intro hp
          rcases hp with hp | hp <;> cases hp
        · intro _
          exact ⟨rfl, rfl⟩
        · intro hp
          cases hp
        · intro hp
          cases hp
        · intro hp
          cases hp
        · exact hcp _ rfl
      | ok md =>
        have hf := finalizeMarkdown_fields cfg ext resp req md
          (if isHTML && cfg.hasCache && Cache.IsCacheable resp now then
            some (req.url, raw, Cache.TTL resp now) else none)
        refine ⟨?_, ?_, ?_, ?_, ?_, ?_⟩
        · intro _
          exact hf.1
        · intro hp
          exact absurd (hf.2.1.symm.trans hp) (by decide)
        · intro hp
          exact absurd (hf.2.1.symm.trans hp) (by decide)
        · intro _
          exact Or.inl trivial
        · intro hp
          exact absurd (hf.2.1.symm.trans hp) (by decide)
        · intro u b2 t hsome
          exact hcp _ rfl u b2 t (hf.2.2.symm.trans hsome)
    | false =>
      simp only [if_false, Bool.false_eq_true]
      refine ⟨?_, ?_, ?_, ?_, ?_, ?_⟩
      · intro _
        trivial
      · intro hp
        cases hp
      · intro _
        exact ⟨trivial, trivial⟩
      · intro hp
        cases hp
      · intro hp
        cases hp
      · exact hcp _ rfl

/-- Exhaustive outcome shape of `RoundTrip` on a successful inner response:
either the response is returned unchanged, or the decode succeeded and the
result is `processBody` of the decoded bytes under the computed intents. -/
theorem roundTrip_cases (ext : Middleware.Externals) (cfg : Middleware.Config)
    (req : Middleware.Req) (resp : Resp) (now : Int) :
    Middleware.RoundTrip ext cfg req (Except.ok resp) now
        = Except.ok { resp := resp, path := Middleware.ExitPath.unchangedP } ∨
      ∃ decoded,
        Middleware.DecompressRead ext.gz resp.body (resp.hdrs.contentEncoding.getD "")
            = Middleware.DecodeOut.ok decoded ∧
        Middleware.RoundTrip ext cfg req (Except.ok resp) now
          = Except.ok (Middleware.processBody ext cfg req resp now
              (Converter.IsHTMLContentType resp.hdrs.contentType)
              (Middleware.shouldConvertHTML cfg
                (Converter.IsHTMLContentType resp.hdrs.contentType)
                (Middleware.wantsMarkdown req))
              (Middleware.shouldConvertJSON cfg
                (Converter.IsJSONContentType resp.hdrs.contentType)
                (Middleware.wantsMarkdown req))
              decoded) := by
  by_cases h1 : (!(Converter.IsHTMLContentType resp.hdrs.contentType) &&
      !(Converter.IsJSONContentType resp.hdrs.contentType)) = true
  · left
    simp only [Middleware.RoundTrip, h1, if_true]
  · by_cases h2 : (!(Converter.IsHTMLContentType resp.hdrs.contentType) &&
        !(Middleware.shouldConvertJSON cfg
          (Converter.IsJSONContentType resp.hdrs.contentType)
          (Middleware.wantsMarkdown req))) = true
    · left
      simp only [Middleware.RoundTrip, h1, h2, if_true, Bool.false_eq_true, if_false]
    · cases hdec : Middleware.DecompressRead ext.gz resp.body
          (resp.hdrs.contentEncoding.getD "") with
      | mkErr =>
        left
        simp only [Middleware.RoundTrip, h1, h2, Bool.false_eq_true, if_false, hdec]
      | readErr =>
        left
        simp only [Middleware.RoundTrip, h1, h2, Bool.false_eq_true, if_false, hdec]
      | ok decoded =>
        right
        refine ⟨decoded, rfl, ?_⟩
        simp only [Middleware.RoundTrip, h1, h2, Bool.false_eq_true, if_false, hdec]

/-- A concrete externals bundle for the closed evaluations: gzip never used,
the HTML converter echoes its input, the token counter returns zero. -/
def ext0 : Middleware.Externals :=
  { gz := fun _ => Middleware.DecodeOut.mkErr
    htmlConvert := fun s => Except.ok s
    tokenCount := fun _ => 0 }

/- ------------------------------------------------------------------ -/
/- C1 — Content-Length versus body length -/
/- ------------------------------------------------------------------ -/

/-- The inner response of the C1 counterexample: JSON content type, honest
`Content-Length: 7` for its seven body bytes, no content encoding. -/
def respC1 : Resp :=
  { status := 200
    hdrs := { contentType := "application/json", contentLength := some "7" }
    body := Converter.strBytes "\x7b\x22a\x22:1\x7d"
    contentLength := 7 }

/-- C1, counterexample: with `max_body_size = 2` and JSON conversion on, the
truncated prefix of the seven-byte JSON body is invalid JSON, so conversion
fails and `RoundTrip` takes the fallthrough (middleware.go lines 130-132),
which replaces the body with the two decoded bytes but leaves the
`Content-Length` header at the inner response's `7`. -/
theorem content_length_sync_claim_counterexample :
    (Middleware.RoundTrip ext0
          { convertJSON := true, maxBodySize := 2 }
          { url := "http://e.com/api" } (Except.ok respC1) 0).map
        (fun out => (out.resp.hdrs.contentLength, out.resp.body.length, out.path))
      = Except.ok (some "7", 2, Middleware.ExitPath.fallthroughP) ∧
    (some "7" : Option String) ≠ some (toString 2) := by
  constructor
  · decide
  · decide

/-- C1, amended: after an error-free `RoundTrip`, the `Content-Length`
header equals the byte length of the body on the decoded-passthrough and
converted-to-Markdown exits; on the unchanged and conversion-failure
fallthrough exits the header keeps the inner response's value (the
fallthrough updates only the `ContentLength` field, not the header, so the
invariant can fail there whenever decoding or truncation changed the body
length). -/
theorem content_length_sync_amended (ext : Middleware.Externals) (cfg : Middleware.Config)
    (req : Middleware.Req) (resp : Resp) (now : Int) (out : Middleware.RTOut)
    (h : Middleware.RoundTrip ext cfg req (Except.ok resp) now = Except.ok out) :
    ((out.path = Middleware.ExitPath.passthroughP ∨
        out.path = Middleware.ExitPath.convertedP) →
      out.resp.hdrs.contentLength = some (toString out.resp.body.length)) ∧
    ((out.path = Middleware.ExitPath.unchangedP ∨
        out.path = Middleware.ExitPath.fallthroughP) →
      out.resp.hdrs.contentLength = resp.hdrs.contentLength) := by
  rcases roundTrip_cases ext cfg req resp now with hu | ⟨d, _, hp⟩
  · rw [hu] at h
    injection h with h2
    rw [← h2]
    refine ⟨?_, ?_⟩
    · intro hcase
      rcases hcase with hcase | hcase <;> cases hcase
    · intro _
      rfl
  · rw [hp] at h
    injection h with h2
    have hx := processBody_exit ext cfg req resp now _ _ _ d _ out rfl h2.symm
    refine ⟨hx.1, ?_⟩
    intro hcase
    rcases hcase with hcase | hcase
    · exact absurd hcase hx.2.2.2.2.1
    · exact congrArg Hdrs.contentLength (hx.2.1 hcase).1

/-- The result of the passthrough run used as the C1 witness. -/
def outW : Middleware.RTOut :=
  { resp :=
      { status := 200
        hdrs := { contentType := "text/html", contentEncoding := none,
                  contentLength := some "3" }
        body := [60, 112, 62]
        contentLength := 3 }
    path := Middleware.ExitPath.passthroughP }

/-- C1, witness: the amended theorem applied to a concrete passthrough
run. -/
theorem content_length_sync_amended_witness :
    ((outW.path = Middleware.ExitPath.passthroughP ∨
        outW.path = Middleware.ExitPath.convertedP) →
      outW.resp.hdrs.contentLength = some (toString outW.resp.body.length)) ∧
    ((outW.path = Middleware.ExitPath.unchangedP ∨
        outW.path = Middleware.ExitPath.fallthroughP) →
      outW.resp.hdrs.contentLength
        = ({ status := 200, hdrs := { contentType := "text/html" },
             body := [60, 112, 62], contentLength := 3 } : Resp).hdrs.contentLength) :=
  content_length_sync_amended ext0 {} {}
    { status := 200, hdrs := { contentType := "text/html" },
      body := [60, 112, 62], contentLength := 3 } 0 outW (by decide)

/- ------------------------------------------------------------------ -/
/- C2 — conversion intent -/
/- ------------------------------------------------------------------ -/

/-- The inner response of the C2 counterexample: an HTML page. -/
def respC2 : Resp :=
  { status := 200
    hdrs := { contentType := "text/html" }
    body := Converter.strBytes "<h1>x</h1>"
    contentLength := 10 }

/-- C2, counterexample: with HTML conversion disabled but negotiate-only on
and the client sending `Accept: text/markdown`, the source's intent (which
under `NegotiateOnly` is recomputed from the Accept header alone,
middleware.go lines 74-78) is true while the spec's formula
HTML ∧ enabled ∧ (¬negotiate-only ∨ wants) is false — and the full pipeline
does convert the response to Markdown. -/
theorem conversion_intent_claim_counterexample :
    Middleware.shouldConvertHTML { convertHTML := false, negotiateOnly := true }
        true true = true ∧
    Middleware.specShouldConvertHTML { convertHTML := false, negotiateOnly := true }
        true true = false ∧
    Middleware.shouldConvertJSON { convertJSON := false, negotiateOnly := true }
        true true = true ∧
    Middleware.specShouldConvertJSON { convertJSON := false, negotiateOnly := true }
        true true = false ∧
    (Middleware.RoundTrip ext0 { convertHTML := false, negotiateOnly := true }
          { accept := "text/markdown" } (Except.ok respC2) 0).map
        (fun out => (out.resp.hdrs.contentType, out.path))
      = Except.ok ("text/markdown; charset=utf-8", Middleware.ExitPath.convertedP) := by
  refine ⟨by decide, by decide, by decide, by decide, by decide⟩

/-- C2, amended: the conversion intents the pipeline acts on are
`shouldConvertX = isX ∧ (negotiate-only ? client-prefers-markdown :
conversion-enabled)` — under negotiate-only the enabled flags are ignored —
and a response is converted to Markdown only under one of those intents. -/
theorem conversion_intent_amended (ext : Middleware.Externals) (cfg : Middleware.Config)
    (req : Middleware.Req) (resp : Resp) (now : Int) (out : Middleware.RTOut)
    (h : Middleware.RoundTrip ext cfg req (Except.ok resp) now = Except.ok out)
    (hp : out.path = Middleware.ExitPath.convertedP) :
    (Middleware.shouldConvertHTML cfg
        (Converter.IsHTMLContentType resp.hdrs.contentType)
        (Middleware.wantsMarkdown req) = true ∨
      Middleware.shouldConvertJSON cfg
        (Converter.IsJSONContentType resp.hdrs.contentType)
        (Middleware.wantsMarkdown req) = true) ∧
    (∀ i w : Bool, Middleware.shouldConvertHTML cfg i w
        = (i && (if cfg.negotiateOnly then w else cfg.convertHTML))) ∧
    (∀ i w : Bool, Middleware.shouldConvertJSON cfg i w
        = (i && (if cfg.negotiateOnly then w else cfg.convertJSON))) := by
  refine ⟨?_, ?_, ?_⟩
  · rcases roundTrip_cases ext cfg req resp now with hu | ⟨d, _, hpb⟩
    · rw [hu] at h
      injection h with h2
      rw [← h2] at hp
      cases hp
    · rw [hpb] at h
      injection h with h2
      have hx := processBody_exit ext cfg req resp now _ _ _ d _ out rfl h2.symm
      rcases hx.2.2.2.1 hp with hc | hc
      · exact Or.inl hc
      · exact Or.inr hc
  · intro i w
    cases hn : cfg.negotiateOnly <;> simp [Middleware.shouldConvertHTML, hn]
  · intro i w
    cases hn : cfg.negotiateOnly <;> simp [Middleware.shouldConvertJSON, hn]

/-- The converted result of the C2 run, used as its witness. -/
def outC2 : Middleware.RTOut :=
  { resp :=
      { status := 200
        hdrs := { contentType := "text/markdown; charset=utf-8",
                  contentEncoding := none,
                  contentLength := some "10",
                  vary := some "accept" }
        body := Converter.strBytes "<h1>x</h1>"
        contentLength := 10 }
    path := Middleware.ExitPath.convertedP }

/-- C2, witness: the amended theorem applied to the concrete converted
run. -/
theorem conversion_intent_amended_witness :
    (Middleware.shouldConvertHTML { convertHTML := false, negotiateOnly := true }
        (Converter.IsHTMLContentType respC2.hdrs.contentType)
        (Middleware.wantsMarkdown { accept := "text/markdown" }) = true ∨
      Middleware.shouldConvertJSON { convertHTML := false, negotiateOnly := true }
        (Converter.IsJSONContentType respC2.hdrs.contentType)
        (Middleware.wantsMarkdown { accept := "text/markdown" }) = true) ∧
    (∀ i w : Bool,
      Middleware.shouldConvertHTML { convertHTML := false, negotiateOnly := true } i w
        = (i && (if ({ convertHTML := false, negotiateOnly := true } :
            Middleware.Config).negotiateOnly then w else
            ({ convertHTML := false, negotiateOnly := true } :
              Middleware.Config).convertHTML))) ∧
    (∀ i w : Bool,
      Middleware.shouldConvertJSON { convertHTML := false, negotiateOnly := true } i w
        = (i && (if ({ convertHTML := false, negotiateOnly := true } :
            Middleware.Config).negotiateOnly then w else
            ({ convertHTML := false, negotiateOnly := true } :
              Middleware.Config).convertJSON))) :=
  conversion_intent_amended ext0 { convertHTML := false, negotiateOnly := true }
    { accept := "text/markdown" } respC2 0 outC2 (by decide) rfl

/- ------------------------------------------------------------------ -/
/- C9 — silent truncation under max_body_size -/
/- ------------------------------------------------------------------ -/

/-- The JSON intent implies a JSON content type. -/
theorem shouldConvertJSON_isJSON (cfg : Middleware.Config) (j w : Bool)
    (h : Middleware.shouldConvertJSON cfg j w = true) : j = true := by
  unfold Middleware.shouldConvertJSON at h
  cases hn : cfg.negotiateOnly
  · rw [hn] at h
    simp only [Bool.false_eq_true, if_false] at h
    exact ((Bool.and_eq_true _ _).mp h).1
  · rw [hn] at h
    simp only [if_true] at h
    exact ((Bool.and_eq_true _ _).mp h).1

/-- An absent `Content-Encoding` decodes to the body itself. -/
theorem decompressRead_identity (gz : List Nat → Middleware.DecodeOut) (b : List Nat) :
    Middleware.DecompressRead gz b "" = Middleware.DecodeOut.ok b := rfl

/-- `processBody` only ever reads the first `maxBodySize` decoded bytes:
feeding it the truncated stream gives the identical result. -/
theorem processBody_take (ext : Middleware.Externals) (cfg : Middleware.Config)
    (req : Middleware.Req) (resp : Resp) (now : Int) (isHTML sCH sCJ : Bool)
    (b : List Nat) (hm : 0 < cfg.maxBodySize) :
    Middleware.processBody ext cfg req resp now isHTML sCH sCJ b
      = Middleware.processBody ext cfg req resp now isHTML sCH sCJ
          (b.take cfg.maxBodySize.toNat) := by
  unfold Middleware.processBody
  rw [if_pos hm, if_pos hm, List.take_take, min_self]

/-- C9: with `0 < max_body_size = m`, an identity-encoded response whose
decoded body is longer than `m`, and an entered pipeline (HTML content, or
JSON with conversion intent), `RoundTrip` behaves exactly as if the inner
body had been the `m`-byte prefix — no error, no unchanged exit, the
passthrough body is the prefix with `Content-Length` set to `m`, and any
cache write stores the prefix; nothing records that truncation happened. -/
theorem max_body_size_truncation (ext : Middleware.Externals) (cfg : Middleware.Config)
    (req : Middleware.Req) (resp : Resp) (now : Int)
    (hm : 0 < cfg.maxBodySize)
    (henc : resp.hdrs.contentEncoding = none)
    (hlong : cfg.maxBodySize.toNat < resp.body.length)
    (hform : Converter.IsHTMLContentType resp.hdrs.contentType = true ∨
      Middleware.shouldConvertJSON cfg
        (Converter.IsJSONContentType resp.hdrs.contentType)
        (Middleware.wantsMarkdown req) = true) :
    Middleware.RoundTrip ext cfg req (Except.ok resp) now
        = Middleware.RoundTrip ext cfg req
            (Except.ok { resp with body := resp.body.take cfg.maxBodySize.toNat }) now ∧
    ∃ out, Middleware.RoundTrip ext cfg req (Except.ok resp) now = Except.ok out ∧
      out.path ≠ Middleware.ExitPath.unchangedP ∧
      (out.path = Middleware.ExitPath.passthroughP →
        out.resp.body = resp.body.take cfg.maxBodySize.toNat ∧
        out.resp.hdrs.contentLength = some (toString cfg.maxBodySize.toNat)) ∧
      (∀ u b2 t, out.cachePut = some (u, b2, t) →
        b2 = resp.body.take cfg.maxBodySize.toNat) := by
  have h2 : (!(Converter.IsHTMLContentType resp.hdrs.contentType) &&
      !(Middleware.shouldConvertJSON cfg
        (Converter.IsJSONContentType resp.hdrs.contentType)
        (Middleware.wantsMarkdown req))) = false := by
    rcases hform with hh | hj
    · simp [hh]
    · simp [hj]
  have h1 : (!(Converter.IsHTMLContentType resp.hdrs.contentType) &&
      !(Converter.IsJSONContentType resp.hdrs.contentType)) = false := by
    rcases hform with hh | hj
    · simp [hh]
    · simp [shouldConvertJSON_isJSON cfg _ _ hj]
  have hR1 : Middleware.RoundTrip ext cfg req (Except.ok resp) now
      = Except.ok (Middleware.processBody ext cfg req resp now
          (Converter.IsHTMLContentType resp.hdrs.contentType)
          (Middleware.shouldConvertHTML cfg
            (Converter.IsHTMLContentType resp.hdrs.contentType)
            (Middleware.wantsMarkdown req))
          (Middleware.shouldConvertJSON cfg
            (Converter.IsJSONContentType resp.hdrs.contentType)
            (Middleware.wantsMarkdown req))
          resp.body) := by
    simp only [Middleware.RoundTrip, h1, h2, Bool.false_eq_true, if_false, henc,
      Option.getD_none, decompressRead_identity]
  have hR2 : Middleware.RoundTrip ext cfg req
        (Except.ok { resp with body := resp.body.take cfg.maxBodySize.toNat }) now
      = Except.ok (Middleware.processBody ext cfg req resp now
          (Converter.IsHTMLContentType resp.hdrs.contentType)
          (Middleware.shouldConvertHTML cfg
            (Converter.IsHTMLContentType resp.hdrs.contentType)
            (Middleware.wantsMarkdown req))
          (Middleware.shouldConvertJSON cfg
            (Converter.IsJSONContentType resp.hdrs.contentType)
            (Middleware.wantsMarkdown req))
          (resp.body.take cfg.maxBodySize.toNat)) := by
    simp only [Middleware.RoundTrip, h1, h2, Bool.false_eq_true, if_false, henc,
      Option.getD_none, decompressRead_identity]
    rfl
  constructor
  · rw [hR1, hR2]
    exact congrArg Except.ok
      (processBody_take ext cfg req resp now _ _ _ resp.body hm)
  · refine ⟨_, hR1, ?_, ?_, ?_⟩
    all_goals
      have hx := processBody_exit ext cfg req resp now
        (Converter.IsHTMLContentType resp.hdrs.contentType)
        (Middleware.shouldConvertHTML cfg
          (Converter.IsHTMLContentType resp.hdrs.contentType)
          (Middleware.wantsMarkdown req))
        (Middleware.shouldConvertJSON cfg
          (Converter.IsJSONContentType resp.hdrs.contentType)
          (Middleware.wantsMarkdown req))
        resp.body (resp.body.take cfg.maxBodySize.toNat) _ (if_pos hm).symm rfl
    · exact hx.2.2.2.2.1
    · intro hp
      have hlen : (resp.body.take cfg.maxBodySize.toNat).length = cfg.maxBodySize.toNat := by
        rw [List.length_take]
        exact min_eq_left (le_of_lt hlong)
      have hpt := hx.2.2.1 hp
      exact ⟨hpt.1, by rw [hpt.2, hlen]⟩
    · exact hx.2.2.2.2.2

/-- The inner response of the C9 witness run. -/
def respT0 : Resp :=
  { status := 200
    hdrs := { contentType := "text/html" }
    body := [60, 112, 62]
    contentLength := 3 }

/-- C9, witness: the truncation theorem applied to a concrete three-byte
HTML response under `max_body_size = 2`. -/
theorem max_body_size_truncation_witness :
    Middleware.RoundTrip ext0 { maxBodySize := 2 } {} (Except.ok respT0) 0
      = Middleware.RoundTrip ext0 { maxBodySize := 2 } {}
          (Except.ok { respT0 with
            body := respT0.body.take
              (({ maxBodySize := 2 } : Middleware.Config).maxBodySize.toNat) }) 0 :=
  (max_body_size_truncation ext0 { maxBodySize := 2 } {} respT0 0 (by decide) rfl
    (by decide) (Or.inl (by decide))).1

end MITM

